import Mathlib

/-!
# Verification of the miden-base transaction compiler and account storage

Shallow embedding of the two core subsystems of the repository:

* the transaction compiler's program/account compatibility analysis
  (`src/miden-tx/src/compiler/mod.rs`), and
* the typed, Merkle-committed account storage
  (`src/objects/src/accounts/storage/mod.rs`).

External collaborators (the assembler, the sparse-Merkle-tree primitive,
the Rpo hash, the `StorageSlotType` codec from the out-of-tree `slot.rs`)
are modelled from the specification, as noted on each definition.
-/

set_option maxRecDepth 100000

/-- Decidable equality for `Except` results, so concrete runs of the embedded
fallible operations can be checked by `decide`. -/
instance instDecEqExcept {ε α : Type _} [DecidableEq ε] [DecidableEq α] :
    DecidableEq (Except ε α)
  | .ok a, .ok b =>
    if h : a = b then isTrue (by rw [h])
    else isFalse (by intro hc; cases hc; exact h rfl)
  | .ok _, .error _ => isFalse (by intro hc; cases hc)
  | .error _, .ok _ => isFalse (by intro hc; cases hc)
  | .error e, .error f =>
    if h : e = f then isTrue (by rw [h])
    else isFalse (by intro hc; cases hc; exact h rfl)

/- ================================================================
   PART 1: Transaction compiler (src/miden-tx/src/compiler/mod.rs)
   ================================================================ -/

/-- Procedure / content digests are treated as opaque identifiers. -/
abbrev Digest := Nat

/-- Account identifiers are opaque map keys. -/
abbrev AccountId := Nat

/-- Modelled from the spec: VM operations are external; only `Noop` is used by
this core (the substituted empty transaction script). -/
inductive Operation where
  | Noop
deriving DecidableEq, Repr

/-- Modelled from the spec: the block-structured program representation
(`CodeBlock` from the external VM core) with its seven node kinds:
sequence (`Join`), conditional (`Split` with `on_false`/`on_true` arms),
`Loop`, `Call` (carrying the callee digest and the `is_syscall` flag),
leaf (`Span`), and the two opaque forms (`Proxy`, `Dyn`). -/
inductive CodeBlock where
  | Join (first second : CodeBlock)
  | Split (on_false on_true : CodeBlock)
  | Loop (body : CodeBlock)
  | Call (fn_hash : Digest) ( is_syscall : Bool)
  | Span (ops : List Operation)
  | Proxy (hash : Digest)
  | Dyn
deriving DecidableEq, Repr

/-- Modelled from the spec: each node carries a content hash computed once by
the external assembler and used only as an identity in error payloads; it is
modelled as a structural encoding (every claim uses it opaquely). -/
def CodeBlock.hash : CodeBlock → Digest
  | .Join a b => 7 * (2 ^ a.hash * 3 ^ b.hash) + 1
  | .Split a b => 7 * (2 ^ a.hash * 3 ^ b.hash) + 2
  | .Loop a => 7 * a.hash + 3
  | .Call h s => 7 * (2 ^ h * 3 ^ (cond s 1 0)) + 4
  | .Span ops => 7 * ops.length + 5
  | .Proxy h => 7 * h + 6
  | .Dyn => 0

/-- Error type of the transaction compiler (`TransactionCompilerError`). -/
inductive TransactionCompilerError where
  | AccountInterfaceNotFound (account_id : AccountId)
  | BuildCodeBlockTableFailed
  | CompileNoteScriptFailed
  | CompileTxScriptFailed
  | InvalidTransactionInputs
  | LoadAccountFailed
  | NoteIncompatibleWithAccountInterface (hash : Digest)
  | ProgramIncompatibleWithAccountInterface (hash : Digest)
  | TxScriptIncompatibleWithAccountInterface (hash : Digest)
deriving DecidableEq, Repr

/-- Generates a list of calls invoked in each execution branch of the provided
code block (`recursively_collect_call_branches`). The Rust function mutates a
`Vec<Vec<Digest>>` in place; the embedding passes the vector explicitly.
`branches.last()` becomes `List.getLastD branches []` and pushing onto the
last branch becomes `dropLast ++ [last ++ [fn_hash]]`; the source's
`expect("at least one execution branch")` never fires because the vector is
provably never empty (see the safety theorem for claim C10). -/
def recursively_collect_call_branches :
    CodeBlock → List (List Digest) → List (List Digest)
  | .Join first second, branches =>
      recursively_collect_call_branches second
        (recursively_collect_call_branches first branches)
  | .Split on_false on_true, branches =>
      let current_len := (branches.getLastD []).length
      let branches1 := recursively_collect_call_branches on_false branches
      -- If the previous branch had additional calls we need to create a new branch
      let branches2 :=
        if (branches1.getLastD []).length > current_len then
          branches1 ++ [(branches1.getLastD []).take current_len]
        else branches1
      recursively_collect_call_branches on_true branches2
  | .Loop body, branches => recursively_collect_call_branches body branches
  | .Call fn_hash is_syscall, branches =>
      if is_syscall then branches
      else branches.dropLast ++ [branches.getLastD [] ++ [fn_hash]]
  | .Span _, branches => branches
  | .Proxy _, branches => branches
  | .Dyn, branches => branches

/-- Collect call branches by recursively traversing through program execution
branches and accumulating call targets (`collect_call_branches`). -/
def collect_call_branches (code_block : CodeBlock) : List (List Digest) :=
  recursively_collect_call_branches code_block [[]]

/-- Verifies that the provided program is compatible with the target account
interface (`verify_program_account_compatibility`): at least one execution
branch must have all of its call targets inside the interface. -/
def verify_program_account_compatibility (program : CodeBlock)
    (target_account_interface : List Digest) :
    Except TransactionCompilerError Unit :=
  let branches := collect_call_branches program
  if branches.any (fun call_targets =>
      call_targets.all (fun target => target_account_interface.contains target))
  then Except.ok ()
  else Except.error
    (.ProgramIncompatibleWithAccountInterface program.hash)

/-- The assembled transaction program (`Program::with_kernel`): program
assembly and the code-block table are external; the model records the kernel
entry block and the inserted code blocks (note programs in note order, then
the transaction-script program), which is all `compile_transaction` puts in. -/
structure Program where
  kernel_main : CodeBlock
  cb_table : List CodeBlock
deriving DecidableEq, Repr

/-- The transaction compiler state (`TransactionCompiler`): the registry
mapping account ids to their exported-procedure digests (`BTreeMap` modelled
as an association list with unique keys queried by `List.lookup`) and the
cached compiled kernel entry program.  The `assembler` handle is external:
script compilation is modelled as the identity on already-compiled
`CodeBlock`s, so notes and transaction scripts are supplied as code blocks. -/
structure TransactionCompiler where
  account_procedures : List (AccountId × List Digest)
  kernel_main : CodeBlock
deriving DecidableEq, Repr

/-- Compiles the provided notes and verifies each against the target account
interface, in note order, short-circuiting at the first incompatible note
(`TransactionCompiler::compile_notes`; assembling a note script is modelled
as the identity, and an incompatibility is reported as
`NoteIncompatibleWithAccountInterface` carrying the note program's hash). -/
def compile_notes (target_account_interface : List Digest) :
    List CodeBlock → Except TransactionCompilerError (List CodeBlock)
  | [] => Except.ok []
  | note_program :: rest =>
    match verify_program_account_compatibility note_program
        target_account_interface with
    | .ok () =>
        (compile_notes target_account_interface rest).map
          (fun tail => note_program :: tail)
    | .error _ =>
        Except.error (.NoteIncompatibleWithAccountInterface note_program.hash)

/-- Compiles the transaction script program
(`TransactionCompiler::compile_tx_script_program`): if a script is supplied it
is compiled (modelled as identity) and verified; if absent, a single-`Noop`
span is substituted and verified; the returned digest is the script program's
hash exactly when a script was supplied. -/
def compile_tx_script_program (tx_script : Option CodeBlock)
    (target_account_interface : List Digest) :
    Except TransactionCompilerError (CodeBlock × Option Digest) :=
  let tx_script_is_some := tx_script.isSome
  let tx_script_code_block :=
    match tx_script with
    | some tx_script => tx_script
    | none => CodeBlock.Span [Operation.Noop]
  match verify_program_account_compatibility tx_script_code_block
      target_account_interface with
  | .ok () =>
      Except.ok (tx_script_code_block,
        if tx_script_is_some then some tx_script_code_block.hash else none)
  | .error _ =>
      Except.error
        (.TxScriptIncompatibleWithAccountInterface tx_script_code_block.hash)

/-- Compiles a transaction executing the provided notes and an optional
transaction script against the specified account
(`TransactionCompiler::compile_transaction`): looks up the registered
interface, rejects an empty-notes/no-script input, compiles and verifies the
notes and the script, and assembles the kernel-wrapped program together with
the optional script hash.  Building the code-block table from the assembly
context is external and cannot fail in the model; the table contents are the
inserted note programs followed by the script program. -/
def compile_transaction (tc : TransactionCompiler) (account_id : AccountId)
    (notes : List CodeBlock) (tx_script : Option CodeBlock) :
    Except TransactionCompilerError (Program × Option Digest) :=
  match List.lookup account_id tc.account_procedures with
  | none => Except.error (.AccountInterfaceNotFound account_id)
  | some target_account_interface =>
    if notes.isEmpty && tx_script.isNone then
      Except.error .InvalidTransactionInputs
    else
      match compile_notes target_account_interface notes with
      | .error e => Except.error e
      | .ok note_script_programs =>
        match compile_tx_script_program tx_script target_account_interface with
        | .error e => Except.error e
        | .ok (tx_script_program, tx_script_hash) =>
            Except.ok
              ({ kernel_main := tc.kernel_main,
                 cb_table := note_script_programs ++ [tx_script_program] },
               tx_script_hash)

/-- `true` iff every `Call` node in the block is a kernel call
(used to state the "only kernel calls" half of claim C1). -/
def only_kernel_calls : CodeBlock → Bool
  | .Join first second => only_kernel_calls first && only_kernel_calls second
  | .Split on_false on_true =>
      only_kernel_calls on_false && only_kernel_calls on_true
  | .Loop body => only_kernel_calls body
  | .Call _ is_syscall => is_syscall
  | .Span _ => true
  | .Proxy _ => true
  | .Dyn => true

/- ================================================================
   PART 2: Account storage (src/objects/src/accounts/storage/mod.rs)
   ================================================================ -/

/-- Field elements are modelled as natural numbers; only equality and the
injection of slot-type tags matter to this core. -/
abbrev Felt := Nat

/-- A `Word` is a fixed-width vector of four field elements; digests are
word-sized and are identified with words (the source dereferences a digest to
a word wherever storage stores one). -/
abbrev Word := List Felt

/-- `Word::default()` and `SimpleSmt::EMPTY_VALUE`: the zero word. -/
def EMPTY_WORD : Word := [0, 0, 0, 0]

/-- Modelled from the spec: the external commitment primitive (`Hasher`,
Rpo256) producing a fixed-size digest from a sequence of field elements.  The
claims use it only as a function of the element sequence, so it is modelled
as a fixed computable digest of the sequence. -/
def hash_elements (elements : List Felt) : Word :=
  [elements.length,
   elements.foldl (fun acc x => acc + x) 0,
   elements.enum.foldl (fun acc p => acc + (p.1 + 1) * p.2) 0,
   elements.enum.foldl (fun acc p => acc + (p.1 + 1) * (p.1 + 1) * p.2) 0]

/-- Modelled from the spec: `StorageSlotType` lives in the out-of-tree
`slot.rs`; per the spec the tags are `Value{arity}`, `Map{arity}` and
`Array{depth, arity}` with u8 arities and array depth `1 < depth ≤ 64`. -/
inductive StorageSlotType where
  | Value (value_arity : Nat)
  | Map (value_arity : Nat)
  | Array (depth : Nat) (value_arity : Nat)
deriving DecidableEq, Repr

/-- `StorageSlotType::default()`: a zero-arity value slot. -/
def StorageSlotType.default : StorageSlotType := .Value 0

/-- `StorageSlotType::is_default`. -/
def StorageSlotType.is_default : StorageSlotType → Bool
  | .Value 0 => true
  | _ => false

/-- Well-formedness of a slot type per the spec's data model: arities are u8
values and an array's depth `n` satisfies `1 < n ≤ 64`. -/
def StorageSlotType.wf : StorageSlotType → Bool
  | .Value value_arity => decide (value_arity < 256)
  | .Map value_arity => decide (value_arity < 256)
  | .Array depth value_arity =>
      decide (value_arity < 256) && decide (1 < depth) && decide (depth ≤ 64)

/-- Modelled from the spec: the u16 encoding of a slot-type tag used by the
persisted format (`From<&StorageSlotType> for u16` in the out-of-tree
`slot.rs`): high byte = arity, low byte = 0 for a value slot, 255 for a map
slot, and the depth for an array slot (array depths `2..=64` are disjoint
from the other two low bytes). -/
def StorageSlotType.toU16 : StorageSlotType → Nat
  | .Value value_arity => 256 * (value_arity % 256)
  | .Map value_arity => 256 * (value_arity % 256) + 255
  | .Array depth value_arity => 256 * (value_arity % 256) + depth % 256

/-- Modelled from the spec: decoding of a u16 slot-type tag
(`TryFrom<u16> for StorageSlotType`), rejecting structurally invalid tags. -/
def StorageSlotType.fromU16 (n : Nat) : Option StorageSlotType :=
  let arity := n / 256
  let low := n % 256
  if low = 0 then some (.Value arity)
  else if low = 255 then some (.Map arity)
  else if 1 < low ∧ low ≤ 64 then some (.Array low arity)
  else none

/-- Modelled from the spec: `Felt::from(&StorageSlotType)`, the field-element
image of a slot-type tag used for the layout commitment; modelled as the u16
encoding viewed as a field element. -/
def StorageSlotType.toFelt (t : StorageSlotType) : Felt := t.toU16

/-- Errors of the external sparse-Merkle-tree primitive surfaced by the
storage constructor. -/
inductive MerkleError where
  | DuplicateLeafIndex
  | InvalidLeafIndex
deriving DecidableEq, Repr

/-- Sets each `(index, value)` pair in order into a list (later writes to the
same index win), the embedding of in-place indexed updates. -/
def setAll {α : Type _} (init : List α) (entries : List (Nat × α)) : List α :=
  entries.foldl (fun acc e => acc.set e.1 e.2) init

/-- Modelled from the spec: the external `SimpleSmt<8>`, a fixed-depth-8 tree
mapping indices `0..256` to words, with a root commitment over all leaves.
The model stores the full 256-entry leaf vector. -/
structure SimpleSmt where
  leaves : List Word
deriving DecidableEq, Repr

/-- Modelled from the spec: `SimpleSmt::with_leaves` — builds the tree from
`(index, value)` pairs, rejecting out-of-range indices and duplicates. -/
def SimpleSmt.with_leaves (entries : List (Nat × Word)) :
    Except MerkleError SimpleSmt :=
  if entries.all (fun e => decide (e.1 < 256)) then
    if (entries.map Prod.fst).Nodup then
      .ok ⟨setAll (List.replicate 256 EMPTY_WORD) entries⟩
    else .error .DuplicateLeafIndex
  else .error .InvalidLeafIndex

/-- Modelled from the spec: `SimpleSmt::insert` — sets a leaf and returns the
value previously stored there (the zero word for an unset leaf). -/
def SimpleSmt.insert (smt : SimpleSmt) (index : Nat) (value : Word) :
    Word × SimpleSmt :=
  (smt.leaves.getD index EMPTY_WORD, ⟨smt.leaves.set index value⟩)

/-- Modelled from the spec: `SimpleSmt::root` — the commitment over all 256
leaves, modelled as the external hash of the concatenated leaf vector. -/
def SimpleSmt.root (smt : SimpleSmt) : Word := hash_elements smt.leaves.flatten

/-- `AccountError`, restricted to the variants the storage operations use. -/
inductive AccountError where
  | StorageSlotIsReserved (index : Fin 256)
  | DuplicateStorageItems (err : MerkleError)
  | StorageMapToManyMaps (max actual : Nat)
  | StorageSlotInvalidValueArity (slot : Fin 256) (expected actual : Nat)
  | StorageSlotNotValueSlot (slot : Fin 256) (slot_type : StorageSlotType)
deriving DecidableEq, Repr

/-- `AccountError::to_string`, used when the deserializer wraps a
construction failure into `DeserializationError::InvalidValue`. -/
def AccountError.toMsg : AccountError → String
  | .StorageSlotIsReserved _ => "storage slot is reserved"
  | .DuplicateStorageItems _ => "duplicate storage items"
  | .StorageMapToManyMaps _ _ => "too many storage maps"
  | .StorageSlotInvalidValueArity _ _ _ => "invalid value arity"
  | .StorageSlotNotValueSlot _ _ => "not a value slot"

/-- Modelled from the spec: the auxiliary storage-map SMT is external and its
contents are irrelevant to every claim (only the count is validated); it is
modelled as a unit placeholder. -/
abbrev Smt := Unit

/-- A single storage slot entry: the slot's type and its value. -/
abbrev StorageSlot := StorageSlotType × Word

/-- A single storage slot item: the slot index (a u8) and the entry. -/
abbrev SlotItem := Fin 256 × StorageSlot

/-- Account storage: 256 slots in a depth-8 SMT, a parallel 256-entry layout
vector of slot types, and optional auxiliary maps. -/
structure AccountStorage where
  slots : SimpleSmt
  layout : List StorageSlotType
  maps : Option (List Smt)
deriving DecidableEq, Repr

/-- Processing of the constructor's items (the `items.into_iter().map(..)
.collect::<Result<..>>()` loop in `AccountStorage::new`): rejects the
reserved index 255, records each item's type in the layout, and collects the
`(index, value)` tree entries in item order. -/
def AccountStorage.processItems :
    List SlotItem → List StorageSlotType →
    Except AccountError (List StorageSlotType × List (Nat × Word))
  | [], layout => .ok (layout, [])
  | item :: rest, layout =>
    if item.1.val = 255 then .error (.StorageSlotIsReserved item.1)
    else
      match AccountStorage.processItems rest (layout.set item.1.val item.2.1) with
      | .ok (l, es) => .ok (l, (item.1.val, item.2.2) :: es)
      | .error e => .error e

/-- The constructor's initial layout: 256 default slot types with the
reserved slot 255 typed `Value{64}` for the layout commitment. -/
def initialLayout : List StorageSlotType :=
  (List.replicate 256 StorageSlotType.default).set 255
    (StorageSlotType.Value 64)

/-- `AccountStorage::new`: builds the 256-entry layout (reserving slot 255
for the layout commitment with type `Value{64}`), processes the items,
appends the layout-commitment entry, builds the tree, and validates the
auxiliary map count (at most 255). -/
def AccountStorage.new (items : List SlotItem) (maps : Option (List Smt)) :
    Except AccountError AccountStorage :=
  match AccountStorage.processItems items initialLayout with
  | .error e => .error e
  | .ok (layout, entires) =>
    let entires := entires ++
      [(255, hash_elements (layout.map StorageSlotType.toFelt))]
    match SimpleSmt.with_leaves entires with
    | .error e => .error (.DuplicateStorageItems e)
    | .ok slots =>
      match maps with
      | some m =>
          if m.length > 255 then .error (.StorageMapToManyMaps 255 m.length)
          else .ok ⟨slots, layout, maps⟩
      | none => .ok ⟨slots, layout, maps⟩

/-- `AccountStorage::root`: the commitment to this storage. -/
def AccountStorage.root (s : AccountStorage) : Word := s.slots.root

/-- `AccountStorage::get_item`: the value of the slot at the given index (the
depth-8 tree node there), the zero word if the slot was never set. -/
def AccountStorage.get_item (s : AccountStorage) (index : Fin 256) : Word :=
  s.slots.leaves.getD index.val EMPTY_WORD

/-- `AccountStorage::layout_commitment`: recomputed from the layout. -/
def AccountStorage.layout_commitment (s : AccountStorage) : Word :=
  hash_elements (s.layout.map StorageSlotType.toFelt)

/-- `AccountStorage::set_item`: rejects the reserved slot 255, rejects
non-value slots and value slots of non-zero arity, otherwise inserts and
returns the prior word. -/
def AccountStorage.set_item (s : AccountStorage) (index : Fin 256)
    (value : Word) : Except AccountError (Word × AccountStorage) :=
  if index = (255 : Fin 256) then .error (.StorageSlotIsReserved index)
  else
    match s.layout.getD index.val StorageSlotType.default with
    | .Value value_arity =>
        if value_arity > 0 then
          .error (.StorageSlotInvalidValueArity index 0 value_arity)
        else
          let p := s.slots.insert index.val value
          .ok (p.1, { s with slots := p.2 })
    | slot_type => .error (.StorageSlotNotValueSlot index slot_type)

/-- `AccountStorageDelta`: slots to clear and `(index, value)` updates. -/
structure AccountStorageDelta where
  cleared_items : List (Fin 256)
  updated_items : List (Fin 256 × Word)
deriving DecidableEq, Repr

/-- A `for`-loop of `set_item` calls with `?`-style early return: applies the
pairs in order; at the first failing `set_item` it stops, returning the state
reached so far (the failing call does not mutate) and the error. -/
def set_item_sequence (s : AccountStorage) :
    List (Fin 256 × Word) → AccountStorage × Option AccountError
  | [] => (s, none)
  | (slot_idx, slot_value) :: rest =>
    match s.set_item slot_idx slot_value with
    | .ok p => set_item_sequence p.2 rest
    | .error e => (s, some e)

/-- `AccountStorage::apply_delta`: clears every index in `cleared_items` via
`set_item(idx, Word::default())`, then applies every pair in `updated_items`
via `set_item`; `&mut self` mutation is modelled by returning the (possibly
partially updated) state together with the optional error. -/
def AccountStorage.apply_delta (s : AccountStorage)
    (delta : AccountStorageDelta) : AccountStorage × Option AccountError :=
  match set_item_sequence s
      (delta.cleared_items.map (fun slot_idx => (slot_idx, EMPTY_WORD))) with
  | (s1, some e) => (s1, some e)
  | (s1, none) => set_item_sequence s1 delta.updated_items

/-- The `(index, slot type)` pairs an item list writes into the layout. -/
def tyPairs (items : List SlotItem) : List (Nat × StorageSlotType) :=
  items.map (fun it => (it.1.val, it.2.1))

/-- The `(index, value)` tree entries an item list contributes. -/
def valPairs (items : List SlotItem) : List (Nat × Word) :=
  items.map (fun it => (it.1.val, it.2.2))

/-- The storages reachable through the public storage API: constructed by
`AccountStorage::new` and mutated by any sequence of `set_item` and
`apply_delta` calls (including the partially-applied states a failing delta
leaves behind). -/
inductive Reachable : AccountStorage → Prop where
  | new (items : List SlotItem) (maps : Option (List Smt))
      (s : AccountStorage) :
      AccountStorage.new items maps = .ok s → Reachable s
  | set (s : AccountStorage) (index : Fin 256) (value : Word)
      (p : Word × AccountStorage) :
      Reachable s → s.set_item index value = .ok p → Reachable p.2
  | delta (s : AccountStorage) (d : AccountStorageDelta) :
      Reachable s → Reachable (s.apply_delta d).1

-- sanity: building an empty storage succeeds and its slot 255 holds the
-- layout commitment
example :
    (AccountStorage.new [] none).map
      (fun s => decide (s.get_item 255 = s.layout_commitment)) =
      .ok true := by rfl

/- ================================================================
   Serialization (persisted encoding of AccountStorage)
   ================================================================ -/

/-- A unit of the persisted byte stream.  The byte-level codec (`ByteWriter`
and `ByteReader` from the external winter-utils layer) is modelled at token
granularity: one token per `write_u8` / `write_u16` / word write. -/
inductive SerTok where
  | u8 (value : Fin 256)
  | u16 (value : Nat)
  | word (value : Word)
deriving DecidableEq, Repr

/-- The `as u8` cast used when writing counts and indices. -/
def toU8 (n : Nat) : Fin 256 := ⟨n % 256, Nat.mod_lt n (by decide)⟩

/-- `Serializable for AccountStorage`: writes the count and `(index, tag)`
pairs of the non-default slot types among indices 0–254, then the count and
`(index, value)` pairs of the non-empty, non-reserved slot values. -/
def AccountStorage.write_into (s : AccountStorage) : List SerTok :=
  let complex_types := (s.layout.take 255).enum.filter
    (fun p => !p.2.is_default)
  let filled_slots := s.slots.leaves.enum.filter
    (fun p => !(p.2 == EMPTY_WORD) && !(p.1 == 255))
  [SerTok.u8 (toU8 complex_types.length)]
    ++ (complex_types.map
        (fun p => [SerTok.u8 (toU8 p.1), SerTok.u16 p.2.toU16])).flatten
    ++ [SerTok.u8 (toU8 filled_slots.length)]
    ++ (filled_slots.map
        (fun p => [SerTok.u8 (toU8 p.1), SerTok.word p.2])).flatten

/-- Deserialization errors (`DeserializationError` of winter-utils),
restricted to the variants this decoder can surface. -/
inductive DeserializationError where
  | UnexpectedEOF
  | InvalidValue (msg : String)
deriving DecidableEq, Repr

/-- `ByteReader::read_u8`. -/
def read_u8 : List SerTok →
    Except DeserializationError (Fin 256 × List SerTok)
  | SerTok.u8 n :: rest => .ok (n, rest)
  | _ => .error .UnexpectedEOF

/-- `ByteReader::read_u16`. -/
def read_u16 : List SerTok →
    Except DeserializationError (Nat × List SerTok)
  | SerTok.u16 n :: rest => .ok (n, rest)
  | _ => .error .UnexpectedEOF

/-- Reading one word value (`source.read()?` at `Word` type). -/
def read_word : List SerTok →
    Except DeserializationError (Word × List SerTok)
  | SerTok.word w :: rest => .ok (w, rest)
  | _ => .error .UnexpectedEOF

/-- `BTreeMap::insert` on the complex-types map (association list with
overwrite semantics). -/
def btInsert (m : List (Fin 256 × StorageSlotType)) (k : Fin 256)
    (v : StorageSlotType) : List (Fin 256 × StorageSlotType) :=
  m.filter (fun p => !(p.1 == k)) ++ [(k, v)]

/-- `BTreeMap::remove` on the complex-types map: the removed value (if any)
and the map without the key. -/
def btRemove (m : List (Fin 256 × StorageSlotType)) (k : Fin 256) :
    Option StorageSlotType × List (Fin 256 × StorageSlotType) :=
  ((m.find? (fun p => p.1 == k)).map (fun p => p.2),
   m.filter (fun p => !(p.1 == k)))

/-- The first deserializer loop: reads `n` `(u8 index, u16 tag)` pairs into
the complex-types map, surfacing `InvalidValue` on an undecodable tag. -/
def readComplexTypes : Nat → List SerTok →
    List (Fin 256 × StorageSlotType) →
    Except DeserializationError
      (List (Fin 256 × StorageSlotType) × List SerTok)
  | 0, source, m => .ok (m, source)
  | n + 1, source, m =>
    match read_u8 source with
    | .error e => .error e
    | .ok (idx, source) =>
      match read_u16 source with
      | .error e => .error e
      | .ok (tag, source) =>
        match StorageSlotType.fromU16 tag with
        | some slot_type => readComplexTypes n source (btInsert m idx slot_type)
        | none => .error (.InvalidValue "invalid storage slot type")

/-- The second deserializer loop: reads `n` `(u8 index, word)` pairs,
pulling each index's slot type out of the complex-types map (defaulting when
absent) and accumulating the slot items in read order. -/
def readFilledSlots : Nat → List SerTok →
    List (Fin 256 × StorageSlotType) → List SlotItem →
    Except DeserializationError (List SlotItem × List SerTok)
  | 0, source, _, items => .ok (items, source)
  | n + 1, source, m, items =>
    match read_u8 source with
    | .error e => .error e
    | .ok (idx, source) =>
      match read_word source with
      | .error e => .error e
      | .ok (slot_value, source) =>
        let r := btRemove m idx
        let slot_type := r.1.getD StorageSlotType.default
        readFilledSlots n source r.2 (items ++ [(idx, (slot_type, slot_value))])

/-- `Deserializable for AccountStorage`: reads the complex types, reads the
filled slots, and feeds the resulting items back into the constructor,
wrapping a construction failure into `InvalidValue`. -/
def AccountStorage.read_from (source : List SerTok) :
    Except DeserializationError (AccountStorage × List SerTok) :=
  match read_u8 source with
  | .error e => .error e
  | .ok (num_complex_types, source) =>
    match readComplexTypes num_complex_types.val source [] with
    | .error e => .error e
    | .ok (complex_types, source) =>
      match read_u8 source with
      | .error e => .error e
      | .ok (num_filled_slots, source) =>
        match readFilledSlots num_filled_slots.val source complex_types [] with
        | .error e => .error e
        | .ok (items, source) =>
          match AccountStorage.new items none with
          | .ok s => .ok (s, source)
          | .error e => .error (.InvalidValue e.toMsg)

-- sanity: the storage of the repository's serialization test round-trips
example :
    (AccountStorage.new
        [(0, (.Value 1, [1, 1, 1, 1])), (1, (.Value 0, [1, 1, 1, 0])),
         (2, (.Map 2, [1, 1, 0, 0])), (3, (.Array 4 3, [1, 0, 0, 0]))]
        none).map
      (fun s =>
        decide (AccountStorage.read_from s.write_into = .ok (s, []))) =
      .ok true := by rfl

-- sanity: a complex-typed slot holding the zero word does NOT round-trip:
-- its type is serialized but dropped on deserialization
example :
    (AccountStorage.new [(3, (.Array 4 3, EMPTY_WORD))] none).map
      (fun s =>
        (AccountStorage.read_from s.write_into).map
          (fun p => decide (p.1.layout = s.layout))) =
      .ok (.ok false) := by rfl

/-- Fallback value for the extraction helper below. -/
def defaultStorage : AccountStorage := ⟨⟨[]⟩, [], none⟩

/-- Extracts the storage from a successful construction. -/
def storageOf (r : Except AccountError AccountStorage) : AccountStorage :=
  match r with
  | .ok s => s
  | .error _ => defaultStorage

/-- The empty storage (no items, no maps). -/
def emptyStorage : AccountStorage := storageOf (AccountStorage.new [] none)

/-- Concrete items exercising each `set_item` outcome: a mutable `Value{0}`
slot, a `Value{2}` slot, an `Array` slot and a `Map` slot. -/
def c5Items : List SlotItem :=
  [(0, (.Value 0, [5, 0, 0, 0])), (1, (.Value 2, [0, 0, 0, 1])),
   (2, (.Array 4 3, [1, 0, 0, 0])), (3, (.Map 2, [2, 0, 0, 0]))]

/-- The storage built from `c5Items`. -/
def c5Storage : AccountStorage := storageOf (AccountStorage.new c5Items none)

/-- A delta whose clear succeeds and whose first update hits the arity-2
value slot (failing), leaving a second update unapplied. -/
def c7Delta : AccountStorageDelta :=
  ⟨[0], [(1, [7, 0, 0, 0]), (0, [8, 0, 0, 0])]⟩

/-- The state of `c5Storage` after the delta's clear of slot 0. -/
def c7Cleared : AccountStorage :=
  (set_item_sequence c5Storage [(0, EMPTY_WORD)]).1

/-- The storage of the counterexample to the storage round-trip claim: one
slot with a non-default (`Array`) type holding the zero word. -/
def cexStorage : AccountStorage :=
  storageOf (AccountStorage.new [(3, (.Array 4 3, EMPTY_WORD))] none)

/-- The storage the deserializer reconstructs from `cexStorage`'s
serialization. -/
def cexStorageRT : AccountStorage :=
  match AccountStorage.read_from cexStorage.write_into with
  | .ok p => p.1
  | .error _ => defaultStorage

/-- Concrete well-formed items (non-default types only with non-zero
values) for the round-trip witness. -/
def rtItems : List SlotItem :=
  [(0, (.Value 1, [1, 1, 1, 1])), (1, (.Value 0, [1, 1, 1, 0])),
   (2, (.Map 2, [1, 1, 0, 0])), (3, (.Array 4 3, [1, 0, 0, 0]))]

/-- The storage built from `rtItems`. -/
def rtStorage : AccountStorage := storageOf (AccountStorage.new rtItems none)

/-- The storage the deserializer reconstructs from `rtStorage`'s
serialization. -/
def rtStorageRT : AccountStorage :=
  match AccountStorage.read_from rtStorage.write_into with
  | .ok p => p.1
  | .error _ => defaultStorage

/-- The non-default slot types among indices 0–254 with their indices — the
first section of the persisted encoding (the serializer's `complex_types`). -/
def complexTypesOf (s : AccountStorage) : List (Nat × StorageSlotType) :=
  (s.layout.take 255).enum.filter (fun p => !p.2.is_default)

/-- The non-empty, non-reserved slot values with their indices — the second
section of the persisted encoding (the serializer's `filled_slots`). -/
def filledSlotsOf (s : AccountStorage) : List (Nat × Word) :=
  s.slots.leaves.enum.filter (fun p => !(p.2 == EMPTY_WORD) && !(p.1 == 255))

/-- Lookup in the complex-types association map (the read view of
`btRemove`'s first component). -/
def btFind (m : List (Fin 256 × StorageSlotType)) (k : Fin 256) :
    Option StorageSlotType :=
  (m.find? (fun p => p.1 == k)).map (fun p => p.2)

/-- Two-item list for the permutation-invariance witness. -/
def c9Items1 : List SlotItem :=
  [(0, (.Value 0, [1, 0, 0, 0])), (5, (.Map 2, [2, 0, 0, 0]))]

/-- The same items in the opposite order. -/
def c9Items2 : List SlotItem :=
  [(5, (.Map 2, [2, 0, 0, 0])), (0, (.Value 0, [1, 0, 0, 0]))]

/-- The storage built from `c9Items1`. -/
def c9s1 : AccountStorage := storageOf (AccountStorage.new c9Items1 none)

/-- The storage built from `c9Items2`. -/
def c9s2 : AccountStorage := storageOf (AccountStorage.new c9Items2 none)

/- ================================================================
   THEOREMS
   ================================================================ -/

/-- The branch traversal never shrinks the branch vector: it only appends
calls to the last branch or pushes duplicated prefixes. -/
lemma length_le_recursively_collect (cb : CodeBlock) :
    ∀ branches : List (List Digest),
      branches.length ≤ (recursively_collect_call_branches cb branches).length := by
  induction cb with
  | Join first second ih1 ih2 =>
      intro bs
      exact le_trans (ih1 bs)
        (ih2 (recursively_collect_call_branches first bs))
  | Split on_false on_true ih1 ih2 =>
      intro bs
      simp only [recursively_collect_call_branches]
      refine le_trans (ih1 bs) (le_trans ?_ (ih2 _))
      split
      · simp
      · exact le_refl _
  | Loop body ih => intro bs; exact ih bs
  | Call fn_hash is_syscall =>
      intro bs
      simp only [recursively_collect_call_branches]
      split
      · exact le_refl _
      · simp only [List.length_append, List.length_dropLast, List.length_cons,
          List.length_nil]
        omega
  | Span ops => intro bs; exact le_refl _
  | Proxy h => intro bs; exact le_refl _
  | Dyn => intro bs; exact le_refl _

/-- A program whose calls are all kernel calls contributes nothing to the
branch vector: the traversal returns it unchanged. -/
lemma recursively_collect_of_only_kernel_calls (cb : CodeBlock)
    (h : only_kernel_calls cb = true) :
    ∀ branches : List (List Digest),
      recursively_collect_call_branches cb branches = branches := by
  induction cb with
  | Join first second ih1 ih2 =>
      intro bs
      simp only [only_kernel_calls, Bool.and_eq_true] at h
      simp only [recursively_collect_call_branches, ih1 h.1, ih2 h.2]
  | Split on_false on_true ih1 ih2 =>
      intro bs
      simp only [only_kernel_calls, Bool.and_eq_true] at h
      simp only [recursively_collect_call_branches, ih1 h.1]
      simp only [lt_irrefl, if_false, gt_iff_lt]
      simp only [ih2 h.2, if_neg (lt_irrefl _)]
  | Loop body ih =>
      intro bs
      simp only [only_kernel_calls] at h
      simp only [recursively_collect_call_branches, ih h]
  | Call fn_hash is_syscall =>
      intro bs
      simp only [only_kernel_calls] at h
      simp only [recursively_collect_call_branches, h, if_true]
  | Span ops => intro bs; rfl
  | Proxy h' => intro bs; rfl
  | Dyn => intro bs; rfl

/-- Claim C10: branch collection always returns a non-empty branch vector —
the recursion starts from one empty branch and only appends to or duplicates
branches (the vector's length never decreases), so the traversal's
"at least one execution branch" expectations never fail and compatibility
verification is total over all program shapes. -/
theorem collect_call_branches_nonempty (cb : CodeBlock)
    (branches : List (List Digest)) :
    (branches ≠ [] → recursively_collect_call_branches cb branches ≠ [])
    ∧ branches.length ≤ (recursively_collect_call_branches cb branches).length
    ∧ collect_call_branches cb ≠ [] := by
  refine ⟨?_, length_le_recursively_collect cb branches, ?_⟩
  · intro hne
    have hlen := length_le_recursively_collect cb branches
    intro hcontra
    rw [hcontra] at hlen
    simp only [List.length_nil, Nat.le_zero, List.length_eq_zero] at hlen
    exact hne hlen
  · have hlen := length_le_recursively_collect cb [[]]
    intro hcontra
    unfold collect_call_branches at hcontra
    rw [hcontra] at hlen
    simp at hlen

/-- Witness for claim C10 at a concrete program. -/
theorem collect_call_branches_nonempty_witness :
    ([[ ]] : List (List Digest)) ≠ [] ∧
      recursively_collect_call_branches
        (.Split (.Call 2 false) (.Call 1 false)) [[]] ≠ [] := by
  refine ⟨by decide, ?_⟩
  exact (collect_call_branches_nonempty
    (.Split (.Call 2 false) (.Call 1 false)) [[]]).1 (by decide)

/-- Claim C1: compatibility verification succeeds iff at least one collected
execution branch has all of its accumulated call targets inside the target
interface; and since kernel calls are never accumulated, a program whose
every call is a kernel call verifies against any interface, including the
empty one. -/
theorem verify_compatibility_iff_branch_subset (program : CodeBlock)
    (target_account_interface : List Digest) :
    (verify_program_account_compatibility program target_account_interface =
        .ok () ↔
      ∃ b ∈ collect_call_branches program,
        ∀ t ∈ b, t ∈ target_account_interface)
    ∧ (only_kernel_calls program = true →
        verify_program_account_compatibility program target_account_interface =
          .ok ()) := by
  constructor
  · unfold verify_program_account_compatibility
    cases hany : (collect_call_branches program).any
        (fun call_targets =>
          call_targets.all (fun target =>
            target_account_interface.contains target)) with
    | true =>
        simp only [hany, if_true]
        simp only [List.any_eq_true, List.all_eq_true] at hany
        constructor
        · intro _
          obtain ⟨b, hb, hall⟩ := hany
          exact ⟨b, hb, fun t ht => List.elem_iff.mp (hall t ht)⟩
        · intro _; trivial
    | false =>
        simp only [hany, if_false]
        constructor
        · intro hcontra; cases hcontra
        · intro ⟨b, hb, hall⟩
          have : (collect_call_branches program).any
              (fun call_targets =>
                call_targets.all (fun target =>
                  target_account_interface.contains target)) = true := by
            refine List.any_eq_true.mpr ⟨b, hb, List.all_eq_true.mpr ?_⟩
            exact fun t ht => List.elem_iff.mpr (hall t ht)
          rw [hany] at this
          cases this
  · intro honly
    unfold verify_program_account_compatibility collect_call_branches
    rw [recursively_collect_of_only_kernel_calls program honly]
    simp

/-- Witness for claim C1 at a concrete all-kernel-calls program and the empty
interface. -/
theorem verify_compatibility_iff_branch_subset_witness :
    only_kernel_calls (.Join (.Call 5 true) (.Loop (.Call 7 true))) = true ∧
      verify_program_account_compatibility
        (.Join (.Call 5 true) (.Loop (.Call 7 true))) [] = .ok () := by
  refine ⟨by decide, ?_⟩
  exact (verify_compatibility_iff_branch_subset
    (.Join (.Call 5 true) (.Loop (.Call 7 true))) []).2 (by decide)

/-- Claim C2: branch enumeration of a `Split` node records the length of the
most-recent open branch, walks `on_false`, duplicates the pre-branch prefix
as a new branch exactly when the walk left the last branch longer, then walks
`on_true`; consequently a conditional calling an in-interface `P1` on one
side and an out-of-interface `P2` on the other is compatible (in either
orientation), while a conditional calling `P2` on both sides is not. -/
theorem split_branch_enumeration (on_false on_true : CodeBlock)
    (branches : List (List Digest)) (P1 P2 : Digest)
    (iface : List Digest) (h1 : P1 ∈ iface) (h2 : P2 ∉ iface) :
    (recursively_collect_call_branches (.Split on_false on_true) branches =
      (let current_len := (branches.getLastD []).length
       let branches1 := recursively_collect_call_branches on_false branches
       let branches2 :=
         if (branches1.getLastD []).length > current_len then
           branches1 ++ [(branches1.getLastD []).take current_len]
         else branches1
       recursively_collect_call_branches on_true branches2))
    ∧ verify_program_account_compatibility
        (.Split (.Call P2 false) (.Call P1 false)) iface = .ok ()
    ∧ verify_program_account_compatibility
        (.Split (.Call P1 false) (.Call P2 false)) iface = .ok ()
    ∧ verify_program_account_compatibility
        (.Split (.Call P2 false) (.Call P2 false)) iface =
        .error (.ProgramIncompatibleWithAccountInterface
          (CodeBlock.hash (.Split (.Call P2 false) (.Call P2 false)))) := by
  have hc1 : iface.contains P1 = true := List.elem_iff.mpr h1
  have hc2 : iface.contains P2 = false := by
    cases hc : iface.contains P2 with
    | false => rfl
    | true => exact absurd (List.elem_iff.mp hc) h2
  refine ⟨rfl, ?_, ?_, ?_⟩
  · unfold verify_program_account_compatibility collect_call_branches
    simp [recursively_collect_call_branches, hc1, hc2, h1, h2]
  · unfold verify_program_account_compatibility collect_call_branches
    simp [recursively_collect_call_branches, hc1, hc2, h1, h2]
  · unfold verify_program_account_compatibility collect_call_branches
    simp [recursively_collect_call_branches, hc1, hc2, h1, h2]

/-- Witness for claim C2 at concrete digests and interface. -/
theorem split_branch_enumeration_witness :
    (1 : Digest) ∈ [1] ∧ (2 : Digest) ∉ [1] ∧
      verify_program_account_compatibility
        (.Split (.Call 2 false) (.Call 1 false)) [1] = .ok () ∧
      verify_program_account_compatibility
        (.Split (.Call 2 false) (.Call 2 false)) [1] =
        .error (.ProgramIncompatibleWithAccountInterface
          (CodeBlock.hash (.Split (.Call 2 false) (.Call 2 false)))) := by
  have h := split_branch_enumeration (.Span []) (.Span []) [[]] 1 2 [1]
    (by decide) (by decide)
  exact ⟨by decide, by decide, h.2.1, h.2.2.2⟩

/-- Every error produced by note compilation is a note-incompatibility
error — in particular never `InvalidTransactionInputs`. -/
lemma compile_notes_error_shape (target_account_interface : List Digest) :
    ∀ (notes : List CodeBlock) (e : TransactionCompilerError),
      compile_notes target_account_interface notes = .error e →
      ∃ h, e = .NoteIncompatibleWithAccountInterface h := by
  intro notes
  induction notes with
  | nil => intro e he; cases he
  | cons note rest ih =>
      intro e he
      unfold compile_notes at he
      cases hv : verify_program_account_compatibility note
          target_account_interface with
      | ok u =>
          cases u
          rw [hv] at he
          cases hrec : compile_notes target_account_interface rest with
          | ok l => rw [hrec] at he; cases he
          | error e' =>
              rw [hrec] at he
              cases he
              exact ih _ hrec
      | error e' =>
          rw [hv] at he
          cases he
          exact ⟨note.hash, rfl⟩

/-- With an empty note list, note compilation trivially succeeds. -/
lemma compile_notes_nil (target_account_interface : List Digest) :
    compile_notes target_account_interface [] = .ok [] := rfl

/-- If every note verifies against the interface, note compilation succeeds
and returns the note programs in order. -/
lemma compile_notes_ok_of_all_verify (target_account_interface : List Digest) :
    ∀ notes : List CodeBlock,
      (∀ n ∈ notes,
        verify_program_account_compatibility n target_account_interface =
          .ok ()) →
      compile_notes target_account_interface notes = .ok notes := by
  intro notes
  induction notes with
  | nil => intro _; rfl
  | cons note rest ih =>
      intro hall
      unfold compile_notes
      rw [hall note (List.mem_cons_self note rest)]
      rw [ih (fun n hn => hall n (List.mem_cons_of_mem note hn))]
      rfl

/-- The substituted single-`Noop` program verifies against any interface:
it has no calls, so its only branch is empty. -/
lemma verify_noop_program (target_account_interface : List Digest) :
    verify_program_account_compatibility (.Span [Operation.Noop])
      target_account_interface = .ok () := by
  unfold verify_program_account_compatibility collect_call_branches
  simp [recursively_collect_call_branches]

/-- Reduction: with no script, a single-`Noop` span is substituted, verified
(trivially passing) and no hash is reported. -/
lemma compile_tx_script_none (target_account_interface : List Digest) :
    compile_tx_script_program none target_account_interface =
      .ok (.Span [Operation.Noop], none) := by
  simp only [compile_tx_script_program]
  rw [verify_noop_program target_account_interface]
  rfl

/-- Reduction: a supplied script that verifies is returned with its hash. -/
lemma compile_tx_script_some_ok (script : CodeBlock)
    (target_account_interface : List Digest)
    (hv : verify_program_account_compatibility script
      target_account_interface = .ok ()) :
    compile_tx_script_program (some script) target_account_interface =
      .ok (script, some script.hash) := by
  simp only [compile_tx_script_program]
  rw [hv]
  rfl

/-- Reduction: a supplied script that fails verification produces the
script-incompatibility error carrying the script program's hash. -/
lemma compile_tx_script_some_error (script : CodeBlock)
    (target_account_interface : List Digest) (e : TransactionCompilerError)
    (hv : verify_program_account_compatibility script
      target_account_interface = .error e) :
    compile_tx_script_program (some script) target_account_interface =
      .error (.TxScriptIncompatibleWithAccountInterface script.hash) := by
  simp only [compile_tx_script_program]
  rw [hv]

/-- Every error produced by transaction-script compilation is a
script-incompatibility error — in particular never
`InvalidTransactionInputs`. -/
lemma compile_tx_script_error_shape (tx_script : Option CodeBlock)
    (target_account_interface : List Digest) (e : TransactionCompilerError)
    (he : compile_tx_script_program tx_script target_account_interface =
      .error e) :
    ∃ h, e = .TxScriptIncompatibleWithAccountInterface h := by
  cases tx_script with
  | none => rw [compile_tx_script_none] at he; cases he
  | some script =>
      cases hv : verify_program_account_compatibility script
          target_account_interface with
      | ok u =>
          cases u
          rw [compile_tx_script_some_ok script _ hv] at he
          cases he
      | error e' =>
          rw [compile_tx_script_some_error script _ _ hv] at he
          cases he
          exact ⟨_, rfl⟩

/-- Claim C4 (counterexample to the claim as stated): with an unregistered
account, `compile_transaction` on an empty note list with no script fails
with `AccountInterfaceNotFound`, not with `InvalidTransactionInputs`, so the
"iff" of the claim does not hold unconditionally. -/
theorem compile_transaction_invalid_inputs_counterexample :
    (([] : List CodeBlock) = [] ∧ (none : Option CodeBlock) = none) ∧
      compile_transaction ⟨[], .Span [.Noop]⟩ 0 [] none ≠
        .error .InvalidTransactionInputs ∧
      compile_transaction ⟨[], .Span [.Noop]⟩ 0 [] none =
        .error (.AccountInterfaceNotFound 0) := by decide

/-- Claim C4 (amended): provided the account's interface is registered,
`compile_transaction` returns `InvalidTransactionInputs` iff the note list is
empty and no transaction script is supplied; and when the note list is
non-empty, the script is absent, and every note verifies against the
registered interface, it succeeds and returns no script hash. -/
theorem compile_transaction_invalid_inputs_iff
    (procs : List (AccountId × List Digest)) (kernel_main : CodeBlock)
    (account_id : AccountId) (iface : List Digest)
    (notes : List CodeBlock) (tx_script : Option CodeBlock)
    (hreg : List.lookup account_id procs = some iface) :
    (compile_transaction ⟨procs, kernel_main⟩ account_id notes tx_script =
        .error .InvalidTransactionInputs ↔
      (notes = [] ∧ tx_script = none))
    ∧ (notes ≠ [] → tx_script = none →
        (∀ n ∈ notes,
          verify_program_account_compatibility n iface = .ok ()) →
        compile_transaction ⟨procs, kernel_main⟩ account_id notes tx_script =
          .ok (⟨kernel_main, notes ++ [.Span [Operation.Noop]]⟩, none)) := by
  constructor
  · unfold compile_transaction
    simp only [hreg]
    cases hempty : notes.isEmpty && tx_script.isNone with
    | true =>
        rw [if_pos rfl]
        simp only [Bool.and_eq_true, List.isEmpty_iff,
          Option.isNone_iff_eq_none] at hempty
        exact ⟨fun _ => hempty, fun _ => rfl⟩
    | false =>
        rw [if_neg (by simp)]
        constructor
        · intro hres
          exfalso
          cases hn : compile_notes iface notes with
          | error e =>
              rw [hn] at hres
              cases hres
              obtain ⟨h, hh⟩ := compile_notes_error_shape iface notes _ hn
              cases hh
          | ok l =>
              rw [hn] at hres
              cases hts : compile_tx_script_program tx_script iface with
              | error e =>
                  rw [hts] at hres
                  cases hres
                  obtain ⟨h, hh⟩ := compile_tx_script_error_shape _ _ _ hts
                  cases hh
              | ok p =>
                  rw [hts] at hres
                  cases hres
        · intro ⟨hn, hs⟩
          rw [hn, hs] at hempty
          cases hempty
  · intro hne hs hall
    unfold compile_transaction
    simp only [hreg]
    have hempty : (notes.isEmpty && tx_script.isNone) = false := by
      cases notes with
      | nil => exact absurd rfl hne
      | cons a l => rfl
    rw [hempty, if_neg (by simp)]
    rw [compile_notes_ok_of_all_verify iface notes hall, hs,
      compile_tx_script_none iface]

/-- Witness for (amended) claim C4 at a concrete registered compiler. -/
theorem compile_transaction_invalid_inputs_iff_witness :
    (List.lookup 7 [(7, [3])] = some [3]) ∧
      (compile_transaction ⟨[(7, [3])], .Span [.Noop]⟩ 7 [] none =
          .error .InvalidTransactionInputs) ∧
      (compile_transaction ⟨[(7, [3])], .Span [.Noop]⟩ 7 [.Call 3 false] none =
        .ok (⟨.Span [.Noop], [.Call 3 false, .Span [Operation.Noop]]⟩,
          none)) := by
  have h := compile_transaction_invalid_inputs_iff [(7, [3])] (.Span [.Noop])
    7 [3] [.Call 3 false] none (by decide)
  have h0 := compile_transaction_invalid_inputs_iff [(7, [3])] (.Span [.Noop])
    7 [3] [] none (by decide)
  refine ⟨by decide, h0.1.mpr ⟨rfl, rfl⟩, ?_⟩
  have := h.2 (by decide) rfl (by decide)
  simpa using this

/-- Claim C8: when no transaction script is supplied, a single-`Noop` program
is substituted, verified (trivially passing), and no script hash is returned;
when a script is supplied and verification succeeds, the returned digest is
exactly the script program's content hash — the returned hash is present iff
a script was supplied. -/
theorem tx_script_hash_iff_script_supplied
    (target_account_interface : List Digest) (script : CodeBlock) :
    (compile_tx_script_program none target_account_interface =
        .ok (.Span [Operation.Noop], none))
    ∧ (verify_program_account_compatibility script
          target_account_interface = .ok () →
        compile_tx_script_program (some script) target_account_interface =
          .ok (script, some script.hash))
    ∧ (∀ blk h,
        compile_tx_script_program (some script) target_account_interface =
          .ok (blk, h) →
        blk = script ∧ h = some script.hash) := by
  refine ⟨compile_tx_script_none target_account_interface,
    fun hv => compile_tx_script_some_ok script target_account_interface hv,
    ?_⟩
  intro blk h hok
  cases hv : verify_program_account_compatibility script
      target_account_interface with
  | ok u =>
      cases u
      rw [compile_tx_script_some_ok script _ hv] at hok
      cases hok
      exact ⟨rfl, rfl⟩
  | error e =>
      rw [compile_tx_script_some_error script _ _ hv] at hok
      cases hok

/-- Witness for claim C8 at a concrete script and interface. -/
theorem tx_script_hash_iff_script_supplied_witness :
    (verify_program_account_compatibility (.Call 3 false) [3] = .ok ()) ∧
      compile_tx_script_program (some (.Call 3 false)) [3] =
        .ok (.Call 3 false, some (CodeBlock.hash (.Call 3 false))) := by
  refine ⟨by decide, ?_⟩
  exact (tx_script_hash_iff_script_supplied [3] (.Call 3 false)).2.1 (by decide)

-- quick sanity checks on concrete programs
example :
    collect_call_branches (.Split (.Call 2 false) (.Call 1 false)) =
      [[2], [1]] := by decide


/- ================================================================
   Generic machinery: indexed batch updates on lists
   ================================================================ -/

lemma length_setAll {α : Type _} (init : List α)
    (entries : List (Nat × α)) : (setAll init entries).length = init.length := by
  induction entries generalizing init with
  | nil => rfl
  | cons e rest ih =>
      show (setAll (init.set e.1 e.2) rest).length = _
      rw [ih, List.length_set]

lemma setAll_append {α : Type _} (init : List α) (l1 l2 : List (Nat × α)) :
    setAll init (l1 ++ l2) = setAll (setAll init l1) l2 :=
  List.foldl_append _ _ _ _

lemma getD_set_self {α : Type _} (l : List α) (i : Nat) (a d : α)
    (h : i < l.length) : (l.set i a).getD i d = a := by
  simp [List.getD, List.getElem?_set_self', h]

lemma getD_set_ne {α : Type _} (l : List α) (i j : Nat) (a d : α)
    (h : i ≠ j) : (l.set i a).getD j d = l.getD j d := by
  simp [List.getD, List.getElem?_set_ne h]

/-- The value of a batch of indexed writes at a position `j`, when the write
indices are distinct: the write at index `j` if there is one, the initial
value otherwise. -/
lemma setAll_getD {α : Type _} (entries : List (Nat × α))
    (init : List α) (j : Nat) (d : α)
    (hnd : (entries.map Prod.fst).Nodup) (hj : j < init.length) :
    (setAll init entries).getD j d =
      match entries.find? (fun p => p.1 == j) with
      | some p => p.2
      | none => init.getD j d := by
  induction entries generalizing init with
  | nil => rfl
  | cons e rest ih =>
      simp only [List.map_cons, List.nodup_cons] at hnd
      show (setAll (init.set e.1 e.2) rest).getD j d = _
      cases he : e.1 == j with
      | true =>
          have hej : e.1 = j := by simpa using he
          rw [ih _ (by simpa using hnd.2) (by rw [List.length_set]; exact hj)]
          have hnone : rest.find? (fun p => p.1 == j) = none := by
            rw [List.find?_eq_none]
            intro x hx hpx
            exact hnd.1 (by
              have : x.1 = j := by simpa using hpx
              rw [hej, ← this]
              exact List.mem_map_of_mem Prod.fst hx)
          rw [hnone]
          simp only [List.find?_cons, he]
          rw [hej, getD_set_self _ _ _ _ hj]
      | false =>
          have hej : e.1 ≠ j := by simpa using he
          rw [ih _ (by simpa using hnd.2) (by rw [List.length_set]; exact hj)]
          simp only [List.find?_cons, he]
          cases hfind : rest.find? (fun p => p.1 == j) with
          | some p => rfl
          | none => rw [getD_set_ne _ _ _ _ _ hej]

/-- Two lists of equal length agreeing at every position (read through
`getD`) are equal. -/
lemma list_eq_of_getD {α : Type _} (l1 l2 : List α) (d : α)
    (hlen : l1.length = l2.length)
    (h : ∀ j, j < l1.length → l1.getD j d = l2.getD j d) : l1 = l2 := by
  refine List.ext_getElem hlen ?_
  intro i h1 h2
  have := h i h1
  rwa [List.getD_eq_getElem l1 d h1, List.getD_eq_getElem l2 d h2] at this

/-- In a list with distinct first components, two members sharing a first
component are the same member. -/
lemma mem_idx_unique {α β : Type _} {ps : List (α × β)}
    (hnd : (ps.map Prod.fst).Nodup) {p q : α × β}
    (hp : p ∈ ps) (hq : q ∈ ps) (heq : p.1 = q.1) : p = q :=
  List.inj_on_of_nodup_map hnd hp hq heq

/-- `find?` by first component is invariant under permutation when the first
components are distinct. -/
lemma find?_idx_perm {α β : Type _} [DecidableEq α]
    {ps1 ps2 : List (α × β)} (hperm : ps1.Perm ps2)
    (hnd : (ps1.map Prod.fst).Nodup) (j : α) :
    ps1.find? (fun p => p.1 == j) = ps2.find? (fun p => p.1 == j) := by
  cases h1 : ps1.find? (fun p => p.1 == j) with
  | some p =>
      have hp1 : p ∈ ps1 := List.mem_of_find?_eq_some h1
      have hpj : p.1 = j := by simpa using List.find?_some h1
      cases h2 : ps2.find? (fun p => p.1 == j) with
      | some q =>
          have hq1 : q ∈ ps1 := hperm.symm.subset (List.mem_of_find?_eq_some h2)
          have hqj : q.1 = j := by simpa using List.find?_some h2
          rw [mem_idx_unique hnd hp1 hq1 (by rw [hpj, hqj])]
      | none =>
          exfalso
          rw [List.find?_eq_none] at h2
          exact h2 p (hperm.subset hp1) (by simpa using hpj)
  | none =>
      rw [List.find?_eq_none] at h1
      symm
      rw [List.find?_eq_none]
      exact fun x hx => h1 x (hperm.symm.subset hx)

example :
    verify_program_account_compatibility
      (.Split (.Call 2 false) (.Call 1 false)) [1] = .ok () := by decide

example :
    verify_program_account_compatibility
      (.Split (.Call 2 false) (.Call 2 false)) [1] =
      .error (.ProgramIncompatibleWithAccountInterface
        (CodeBlock.hash (.Split (.Call 2 false) (.Call 2 false)))) := by decide

/- ================================================================
   Characterization of the storage constructor
   ================================================================ -/

/-- When no item addresses the reserved slot, item processing succeeds and
returns the batch-updated layout together with the tree entries in order. -/
lemma processItems_ok_of (items : List SlotItem) :
    ∀ layout : List StorageSlotType,
      (∀ it ∈ items, it.1.val ≠ 255) →
      AccountStorage.processItems items layout =
        .ok (setAll layout (tyPairs items), valPairs items) := by
  induction items with
  | nil => intro layout _; rfl
  | cons item rest ih =>
      intro layout hno
      have hitem : item.1.val ≠ 255 := hno item (List.mem_cons_self item rest)
      show (if item.1.val = 255 then _ else _) = _
      rw [if_neg hitem]
      rw [ih (layout.set item.1.val item.2.1)
        (fun it hit => hno it (List.mem_cons_of_mem item hit))]
      rfl

/-- Successful item processing implies no item addressed the reserved
slot. -/
lemma processItems_ok_no255 (items : List SlotItem) :
    ∀ layout r,
      AccountStorage.processItems items layout = .ok r →
      ∀ it ∈ items, it.1.val ≠ 255 := by
  induction items with
  | nil => intro _ _ _ it hit; cases hit
  | cons item rest ih =>
      intro layout r h it hit
      by_cases h255 : item.1.val = 255
      · exfalso
        have : AccountStorage.processItems (item :: rest) layout =
            .error (.StorageSlotIsReserved item.1) := by
          show (if item.1.val = 255 then _ else _) = _
          rw [if_pos h255]
        rw [this] at h
        cases h
      · have hstep : AccountStorage.processItems (item :: rest) layout =
            match AccountStorage.processItems rest
                (layout.set item.1.val item.2.1) with
            | .ok (l, es) => .ok (l, (item.1.val, item.2.2) :: es)
            | .error e => .error e := by
          show (if item.1.val = 255 then _ else _) = _
          rw [if_neg h255]
        rw [hstep] at h
        rcases List.mem_cons.mp hit with rfl | hmem
        · exact h255
        · cases hrec : AccountStorage.processItems rest
              (layout.set item.1.val item.2.1) with
          | ok r' => exact ih _ r' hrec it hmem
          | error e => rw [hrec] at h; cases h

/-- Success characterization of `SimpleSmt::with_leaves`. -/
lemma with_leaves_ok (entries : List (Nat × Word)) (smt : SimpleSmt)
    (h : SimpleSmt.with_leaves entries = .ok smt) :
    smt.leaves = setAll (List.replicate 256 EMPTY_WORD) entries ∧
      (entries.map Prod.fst).Nodup := by
  unfold SimpleSmt.with_leaves at h
  by_cases hall : entries.all (fun e => decide (e.1 < 256)) = true
  · rw [if_pos hall] at h
    by_cases hnd : (entries.map Prod.fst).Nodup
    · rw [if_pos hnd] at h
      cases h
      exact ⟨rfl, hnd⟩
    · rw [if_neg hnd] at h; cases h
  · rw [if_neg hall] at h; cases h

/-- `SimpleSmt::with_leaves` succeeds on in-range, duplicate-free entries. -/
lemma with_leaves_ok_of (entries : List (Nat × Word))
    (hlt : ∀ e ∈ entries, e.1 < 256) (hnd : (entries.map Prod.fst).Nodup) :
    SimpleSmt.with_leaves entries =
      .ok ⟨setAll (List.replicate 256 EMPTY_WORD) entries⟩ := by
  unfold SimpleSmt.with_leaves
  rw [if_pos (List.all_eq_true.mpr (fun e he => by
    simpa using hlt e he)), if_pos hnd]

lemma tyPairs_map_fst (items : List SlotItem) :
    (tyPairs items).map Prod.fst = items.map (fun it => it.1.val) := by
  simp [tyPairs, List.map_map]

lemma valPairs_map_fst (items : List SlotItem) :
    (valPairs items).map Prod.fst = items.map (fun it => it.1.val) := by
  simp [valPairs, List.map_map]

/-- Success characterization of `AccountStorage::new`: the layout is the
batch update of the initial layout by the items' types, the leaves are the
batch update of the zero leaves by the items' values followed by the
layout-commitment entry at slot 255, the maps are passed through, no item
addressed slot 255, and the tree entries (commitment entry included) have
pairwise-distinct indices. -/
lemma new_ok_char (items : List SlotItem) (maps : Option (List Smt))
    (s : AccountStorage) (h : AccountStorage.new items maps = .ok s) :
    s.layout = setAll initialLayout (tyPairs items) ∧
      s.slots.leaves = setAll (List.replicate 256 EMPTY_WORD)
        (valPairs items ++
          [(255, hash_elements (s.layout.map StorageSlotType.toFelt))]) ∧
      s.maps = maps ∧
      (∀ it ∈ items, it.1.val ≠ 255) ∧
      ((valPairs items ++
          [(255, hash_elements
            (s.layout.map StorageSlotType.toFelt))]).map Prod.fst).Nodup := by
  unfold AccountStorage.new at h
  cases hpi : AccountStorage.processItems items initialLayout with
  | error e => rw [hpi] at h; cases h
  | ok r =>
      have hno : ∀ it ∈ items, it.1.val ≠ 255 :=
        processItems_ok_no255 items initialLayout r hpi
      rw [processItems_ok_of items initialLayout hno] at hpi
      cases hpi
      rw [processItems_ok_of items initialLayout hno] at h
      simp only at h
      cases hwl : SimpleSmt.with_leaves
          (valPairs items ++
            [(255, hash_elements
              ((setAll initialLayout (tyPairs items)).map
                StorageSlotType.toFelt))]) with
      | error e => rw [hwl] at h; cases h
      | ok slots =>
          rw [hwl] at h
          dsimp only at h
          obtain ⟨hleaves, hnd⟩ := with_leaves_ok _ _ hwl
          have hs : s = ⟨slots, setAll initialLayout (tyPairs items), maps⟩ := by
            cases maps with
            | none => cases h; rfl
            | some m =>
                dsimp only at h
                by_cases hlen : m.length > 255
                · rw [if_pos hlen] at h; cases h
                · rw [if_neg hlen] at h; cases h; rfl
          subst hs
          exact ⟨rfl, hleaves, rfl, hno, hnd⟩

/-- The constructor succeeds on items with distinct, non-reserved indices
(and an admissible map count), and the result is fully determined. -/
lemma new_ok_of (items : List SlotItem) (maps : Option (List Smt))
    (hno : ∀ it ∈ items, it.1.val ≠ 255)
    (hnd : (items.map (fun it => it.1.val)).Nodup)
    (hmaps : ∀ m, maps = some m → m.length ≤ 255) :
    AccountStorage.new items maps =
      .ok ⟨⟨setAll (List.replicate 256 EMPTY_WORD)
              (valPairs items ++
                [(255, hash_elements
                  ((setAll initialLayout (tyPairs items)).map
                    StorageSlotType.toFelt))])⟩,
            setAll initialLayout (tyPairs items), maps⟩ := by
  unfold AccountStorage.new
  rw [processItems_ok_of items initialLayout hno]
  dsimp only
  have hlt : ∀ e ∈ (valPairs items ++
      [((255 : Nat), hash_elements
        ((setAll initialLayout (tyPairs items)).map
          StorageSlotType.toFelt))]), e.1 < 256 := by
    intro e he
    rcases List.mem_append.mp he with hv | h255
    · obtain ⟨it, _, rfl⟩ := List.mem_map.mp hv
      exact it.1.isLt
    · have he2 := List.mem_singleton.mp h255
      subst he2
      show (255 : Nat) < 256
      decide
  have hndfull : ((valPairs items ++
      [((255 : Nat), hash_elements
        ((setAll initialLayout (tyPairs items)).map
          StorageSlotType.toFelt))]).map Prod.fst).Nodup := by
    rw [List.map_append, List.nodup_append]
    refine ⟨by rw [valPairs_map_fst]; exact hnd, List.nodup_singleton _, ?_⟩
    intro a ha hb
    rw [valPairs_map_fst] at ha
    obtain ⟨it, hit, rfl⟩ := List.mem_map.mp ha
    have h255 : it.1.val = 255 := by simpa using hb
    exact hno it hit h255
  rw [with_leaves_ok_of _ hlt hndfull]
  cases maps with
  | none => rfl
  | some m =>
      have hlen : ¬ m.length > 255 := by
        have := hmaps m rfl
        omega
      dsimp only
      rw [if_neg hlen]

/- ================================================================
   Claim C5: set_item outcomes
   ================================================================ -/

/-- Success characterization of `set_item`: the index is not reserved, the
layout and maps are untouched, the returned word is the prior slot value, and
the leaf at the index is replaced. -/
lemma set_item_ok_char (s : AccountStorage) (index : Fin 256) (value : Word)
    (p : Word × AccountStorage) (h : s.set_item index value = .ok p) :
    index ≠ (255 : Fin 256) ∧ p.2.layout = s.layout ∧ p.2.maps = s.maps ∧
      p.1 = s.get_item index ∧
      p.2.slots.leaves = s.slots.leaves.set index.val value := by
  unfold AccountStorage.set_item at h
  by_cases h255 : index = (255 : Fin 256)
  · rw [if_pos h255] at h; cases h
  · rw [if_neg h255] at h
    cases hty : s.layout.getD index.val StorageSlotType.default with
    | Value arity =>
        rw [hty] at h
        dsimp only at h
        by_cases ha : arity > 0
        · rw [if_pos ha] at h; cases h
        · rw [if_neg ha] at h
          cases h
          exact ⟨h255, rfl, rfl, rfl, rfl⟩
    | Map arity => rw [hty] at h; dsimp only at h; cases h
    | Array depth arity => rw [hty] at h; dsimp only at h; cases h

/-- Claim C5: `set_item(255, _)` always fails with the reserved-slot error;
`set_item` on an `Array` or `Map` slot always fails with the not-a-value-slot
error; `set_item` on a `Value{arity}` slot with `arity > 0` fails with the
invalid-arity error; and `set_item` on a `Value{0}` slot succeeds, inserts
the value, and returns the prior word (which `get_item` reads as the zero
word when the slot was never set). -/
theorem set_item_spec (s : AccountStorage) (index : Fin 256) (value : Word) :
    (s.set_item 255 value = .error (.StorageSlotIsReserved 255))
    ∧ (∀ depth arity, index ≠ (255 : Fin 256) →
        s.layout.getD index.val StorageSlotType.default = .Array depth arity →
        s.set_item index value =
          .error (.StorageSlotNotValueSlot index (.Array depth arity)))
    ∧ (∀ arity, index ≠ (255 : Fin 256) →
        s.layout.getD index.val StorageSlotType.default = .Map arity →
        s.set_item index value =
          .error (.StorageSlotNotValueSlot index (.Map arity)))
    ∧ (∀ arity, index ≠ (255 : Fin 256) → 0 < arity →
        s.layout.getD index.val StorageSlotType.default = .Value arity →
        s.set_item index value =
          .error (.StorageSlotInvalidValueArity index 0 arity))
    ∧ (index ≠ (255 : Fin 256) →
        s.layout.getD index.val StorageSlotType.default = .Value 0 →
        s.set_item index value =
          .ok (s.get_item index,
            { s with slots := ⟨s.slots.leaves.set index.val value⟩ })) := by
  refine ⟨?_, ?_, ?_, ?_, ?_⟩
  · unfold AccountStorage.set_item
    rw [if_pos rfl]
  · intro depth arity h255 hty
    unfold AccountStorage.set_item
    rw [if_neg h255, hty]
  · intro arity h255 hty
    unfold AccountStorage.set_item
    rw [if_neg h255, hty]
  · intro arity h255 ha hty
    unfold AccountStorage.set_item
    rw [if_neg h255, hty]
    dsimp only
    rw [if_pos ha]
  · intro h255 hty
    unfold AccountStorage.set_item
    rw [if_neg h255, hty]
    rfl

/-- Witness for claim C5: each outcome at a concrete storage. -/
theorem set_item_spec_witness :
    (c5Storage.set_item 255 [9, 0, 0, 0] =
        .error (.StorageSlotIsReserved 255))
    ∧ (c5Storage.set_item 2 [9, 0, 0, 0] =
        .error (.StorageSlotNotValueSlot 2 (.Array 4 3)))
    ∧ (c5Storage.set_item 3 [9, 0, 0, 0] =
        .error (.StorageSlotNotValueSlot 3 (.Map 2)))
    ∧ (c5Storage.set_item 1 [9, 0, 0, 0] =
        .error (.StorageSlotInvalidValueArity 1 0 2))
    ∧ (c5Storage.set_item 0 [9, 0, 0, 0] =
        .ok (c5Storage.get_item 0,
          { c5Storage with
            slots := ⟨c5Storage.slots.leaves.set 0 [9, 0, 0, 0]⟩ })) := by
  refine ⟨(set_item_spec c5Storage 0 [9, 0, 0, 0]).1, ?_, ?_, ?_, ?_⟩
  · exact (set_item_spec c5Storage 2 [9, 0, 0, 0]).2.1 4 3 (by decide)
      (by decide)
  · exact (set_item_spec c5Storage 3 [9, 0, 0, 0]).2.2.1 2 (by decide)
      (by decide)
  · exact (set_item_spec c5Storage 1 [9, 0, 0, 0]).2.2.2.1 2 (by decide)
      (by decide) (by decide)
  · exact (set_item_spec c5Storage 0 [9, 0, 0, 0]).2.2.2.2 (by decide)
      (by decide)

/- ================================================================
   Claim C7: apply_delta ordering, abort and no rollback
   ================================================================ -/

/-- Splitting a `set_item` loop at an append: the second part runs only when
the first part completed without error, from the state the first part
reached. -/
lemma set_item_sequence_append (l1 l2 : List (Fin 256 × Word)) :
    ∀ s : AccountStorage,
      set_item_sequence s (l1 ++ l2) =
        match set_item_sequence s l1 with
        | (s1, some e) => (s1, some e)
        | (s1, none) => set_item_sequence s1 l2 := by
  induction l1 with
  | nil => intro s; rfl
  | cons hd rest ih =>
      intro s
      show (match s.set_item hd.1 hd.2 with
            | .ok p => set_item_sequence p.2 (rest ++ l2)
            | .error e => (s, some e)) = _
      cases hsi : s.set_item hd.1 hd.2 with
      | ok p =>
          have hstep : set_item_sequence s (hd :: rest) =
              set_item_sequence p.2 rest := by
            show (match s.set_item hd.1 hd.2 with
                  | .ok p => set_item_sequence p.2 rest
                  | .error e => (s, some e)) = _
            rw [hsi]
          dsimp only
          rw [ih p.2, hstep]
      | error e =>
          have hstep : set_item_sequence s (hd :: rest) = (s, some e) := by
            show (match s.set_item hd.1 hd.2 with
                  | .ok p => set_item_sequence p.2 rest
                  | .error e => (s, some e)) = _
            rw [hsi]
          dsimp only
          rw [hstep]

/-- Claim C7: `apply_delta` runs exactly the `set_item` loop over the cleared
indices (paired with the zero word) followed by the updated pairs, in that
order; and in any such loop the first failing `set_item` aborts the remaining
work and returns its error while the state keeps every operation already
performed (no rollback). -/
theorem apply_delta_sequential (s : AccountStorage)
    (delta : AccountStorageDelta) :
    (s.apply_delta delta = set_item_sequence s
        (delta.cleared_items.map (fun slot_idx => (slot_idx, EMPTY_WORD)) ++
          delta.updated_items))
    ∧ (∀ (ops1 : List (Fin 256 × Word)) (idx : Fin 256) (v : Word)
        (ops2 : List (Fin 256 × Word)) (s1 : AccountStorage)
        (e : AccountError),
        set_item_sequence s ops1 = (s1, none) →
        s1.set_item idx v = .error e →
        set_item_sequence s (ops1 ++ (idx, v) :: ops2) = (s1, some e)) := by
  constructor
  · exact (set_item_sequence_append _ _ s).symm
  · intro ops1 idx v ops2 s1 e h1 h2
    rw [set_item_sequence_append ops1 ((idx, v) :: ops2) s, h1]
    show set_item_sequence s1 ((idx, v) :: ops2) = _
    show (match s1.set_item idx v with
          | .ok p => set_item_sequence p.2 ops2
          | .error e => (s1, some e)) = _
    rw [h2]

/-- Witness for claim C7 at a concrete storage and delta: the clear of slot 0
is applied and remains applied, the update of the arity-2 slot 1 fails and
aborts, and the trailing update is never performed. -/
theorem apply_delta_sequential_witness :
    (c5Storage.apply_delta c7Delta = set_item_sequence c5Storage
        (c7Delta.cleared_items.map (fun slot_idx => (slot_idx, EMPTY_WORD)) ++
          c7Delta.updated_items))
    ∧ set_item_sequence c5Storage
        ([(0, EMPTY_WORD)] ++ ((1 : Fin 256), [7, 0, 0, 0]) ::
          [((0 : Fin 256), [8, 0, 0, 0])]) =
        (c7Cleared, some (.StorageSlotInvalidValueArity 1 0 2)) := by
  refine ⟨(apply_delta_sequential c5Storage c7Delta).1, ?_⟩
  exact (apply_delta_sequential c5Storage c7Delta).2
    [(0, EMPTY_WORD)] 1 [7, 0, 0, 0] [(0, [8, 0, 0, 0])] c7Cleared
    (.StorageSlotInvalidValueArity 1 0 2) (by decide) (by decide)

/- ================================================================
   Claim C6: layout length and layout-commitment invariant
   ================================================================ -/

lemma initialLayout_length : initialLayout.length = 256 := by
  unfold initialLayout
  rw [List.length_set, List.length_replicate]

/-- A freshly constructed storage satisfies the invariant: 256 layout
entries, and slot 255 of the tree holds the recomputed layout commitment. -/
lemma new_ok_invariant (items : List SlotItem) (maps : Option (List Smt))
    (s : AccountStorage) (h : AccountStorage.new items maps = .ok s) :
    s.layout.length = 256 ∧ s.get_item 255 = s.layout_commitment := by
  obtain ⟨hlay, hleaves, _, hno, hnd⟩ := new_ok_char items maps s h
  constructor
  · rw [hlay, length_setAll, initialLayout_length]
  · show s.slots.leaves.getD 255 EMPTY_WORD = _
    rw [hleaves, setAll_append]
    show ((setAll (List.replicate 256 EMPTY_WORD) (valPairs items)).set 255
      (hash_elements (s.layout.map StorageSlotType.toFelt))).getD 255
        EMPTY_WORD = _
    rw [getD_set_self _ _ _ _
      (by rw [length_setAll, List.length_replicate]; decide)]
    rfl

/-- `set_item` preserves the invariant. -/
lemma set_item_invariant (s : AccountStorage) (index : Fin 256) (value : Word)
    (p : Word × AccountStorage) (h : s.set_item index value = .ok p)
    (hlen : s.layout.length = 256)
    (hinv : s.get_item 255 = s.layout_commitment) :
    p.2.layout.length = 256 ∧ p.2.get_item 255 = p.2.layout_commitment := by
  obtain ⟨h255, hlay, _, _, hleaves⟩ := set_item_ok_char s index value p h
  have hval : index.val ≠ 255 := fun hv => h255 (Fin.ext hv)
  constructor
  · rw [hlay, hlen]
  · show p.2.slots.leaves.getD 255 EMPTY_WORD = _
    rw [hleaves, getD_set_ne _ _ _ _ _ hval]
    show s.get_item 255 = _
    rw [hinv]
    show hash_elements (s.layout.map StorageSlotType.toFelt) = _
    rw [← hlay]
    rfl

/-- A `set_item` loop preserves the invariant of its final state, whether or
not it aborted on an error. -/
lemma set_item_sequence_invariant (ops : List (Fin 256 × Word)) :
    ∀ s : AccountStorage,
      s.layout.length = 256 → s.get_item 255 = s.layout_commitment →
      (set_item_sequence s ops).1.layout.length = 256 ∧
        (set_item_sequence s ops).1.get_item 255 =
          (set_item_sequence s ops).1.layout_commitment := by
  induction ops with
  | nil => intro s hlen hinv; exact ⟨hlen, hinv⟩
  | cons hd rest ih =>
      intro s hlen hinv
      have hstep : ∀ r, s.set_item hd.1 hd.2 = r →
          set_item_sequence s (hd :: rest) =
            (match r with
             | .ok p => set_item_sequence p.2 rest
             | .error e => (s, some e)) := by
        intro r hr
        show (match s.set_item hd.1 hd.2 with
              | .ok p => set_item_sequence p.2 rest
              | .error e => (s, some e)) = _
        rw [hr]
      cases hsi : s.set_item hd.1 hd.2 with
      | ok p =>
          rw [hstep _ hsi]
          obtain ⟨hl, hi⟩ := set_item_invariant s hd.1 hd.2 p hsi hlen hinv
          exact ih p.2 hl hi
      | error e =>
          rw [hstep _ hsi]
          exact ⟨hlen, hinv⟩

/-- Claim C6: every storage produced by the constructor and mutated by any
sequence of `set_item` and `apply_delta` operations has exactly 256 layout
entries, and the recomputed `layout_commitment` equals the value stored at
slot 255 of the tree. -/
theorem storage_layout_commitment_invariant (s : AccountStorage)
    (h : Reachable s) :
    s.layout.length = 256 ∧ s.get_item 255 = s.layout_commitment := by
  induction h with
  | new items maps s hnew => exact new_ok_invariant items maps s hnew
  | set s index value p _ hset ih =>
      exact set_item_invariant s index value p hset ih.1 ih.2
  | delta s d _ ih =>
      unfold AccountStorage.apply_delta
      cases hseq : set_item_sequence s
          (d.cleared_items.map (fun slot_idx => (slot_idx, EMPTY_WORD))) with
      | mk s1 oe =>
          have h1 := set_item_sequence_invariant
            (d.cleared_items.map (fun slot_idx => (slot_idx, EMPTY_WORD)))
            s ih.1 ih.2
          rw [hseq] at h1
          cases oe with
          | some e => exact h1
          | none => exact set_item_sequence_invariant d.updated_items s1 h1.1 h1.2

/-- Witness for claim C6 at the empty storage. -/
theorem storage_layout_commitment_invariant_witness :
    emptyStorage.layout.length = 256 ∧
      emptyStorage.get_item 255 = emptyStorage.layout_commitment :=
  storage_layout_commitment_invariant emptyStorage
    (Reachable.new [] none emptyStorage (by rfl))

/- ================================================================
   Claim C9: construction order does not affect the root
   ================================================================ -/

/-- A successful construction implies the auxiliary map count was
admissible. -/
lemma new_ok_maps_bound (items : List SlotItem) (maps : Option (List Smt))
    (s : AccountStorage) (h : AccountStorage.new items maps = .ok s) :
    ∀ m, maps = some m → m.length ≤ 255 := by
  intro m hm
  subst hm
  unfold AccountStorage.new at h
  cases hpi : AccountStorage.processItems items initialLayout with
  | error e => rw [hpi] at h; cases h
  | ok r =>
      rw [hpi] at h
      obtain ⟨layout, entires⟩ := r
      dsimp only at h
      cases hwl : SimpleSmt.with_leaves (entires ++
          [(255, hash_elements (layout.map StorageSlotType.toFelt))]) with
      | error e => rw [hwl] at h; cases h
      | ok slots =>
          rw [hwl] at h
          dsimp only at h
          by_cases hlen : m.length > 255
          · rw [if_pos hlen] at h; cases h
          · omega

/-- Claim C9: for items with distinct non-reserved indices, constructing a
storage from any permutation of the item list succeeds and yields the same
`root()` (and the same layout) — construction order does not affect the
committed tree root. -/
theorem new_root_permutation_invariant (items1 items2 : List SlotItem)
    (maps : Option (List Smt)) (s1 : AccountStorage)
    (hperm : items1.Perm items2)
    (h1 : AccountStorage.new items1 maps = .ok s1) :
    ∃ s2, AccountStorage.new items2 maps = .ok s2 ∧
      s2.root = s1.root ∧ s2.layout = s1.layout := by
  obtain ⟨hlay1, hleaves1, _, hno1, hndfull1⟩ := new_ok_char items1 maps s1 h1
  have hnd1 : (items1.map (fun it => it.1.val)).Nodup := by
    rw [← valPairs_map_fst]
    rw [List.map_append] at hndfull1
    exact hndfull1.of_append_left
  have hno2 : ∀ it ∈ items2, it.1.val ≠ 255 :=
    fun it hit => hno1 it (hperm.symm.subset hit)
  have hnd2 : (items2.map (fun it => it.1.val)).Nodup :=
    (hperm.map (fun it => it.1.val)).nodup hnd1
  have h2 := new_ok_of items2 maps hno2 hnd2 (new_ok_maps_bound items1 maps s1 h1)
  -- the two layouts agree pointwise
  have htyperm : (tyPairs items1).Perm (tyPairs items2) := by
    unfold tyPairs
    exact hperm.map _
  have htynd : ((tyPairs items1).map Prod.fst).Nodup := by
    rw [tyPairs_map_fst]; exact hnd1
  have htynd2 : ((tyPairs items2).map Prod.fst).Nodup := by
    rw [tyPairs_map_fst]; exact hnd2
  have hlayeq : setAll initialLayout (tyPairs items2) =
      setAll initialLayout (tyPairs items1) := by
    refine list_eq_of_getD _ _ StorageSlotType.default ?_ ?_
    · rw [length_setAll, length_setAll]
    · intro j hj
      rw [length_setAll] at hj
      rw [setAll_getD _ _ _ _ htynd2 hj, setAll_getD _ _ _ _ htynd hj,
        find?_idx_perm htyperm.symm htynd2 j]
  -- the two leaf vectors agree pointwise
  have hcomm : hash_elements
      ((setAll initialLayout (tyPairs items2)).map StorageSlotType.toFelt) =
      hash_elements (s1.layout.map StorageSlotType.toFelt) := by
    rw [hlayeq, hlay1]
  have hvalperm : (valPairs items1 ++
      [((255 : Nat), hash_elements
        (s1.layout.map StorageSlotType.toFelt))]).Perm
      (valPairs items2 ++
        [((255 : Nat), hash_elements
          (s1.layout.map StorageSlotType.toFelt))]) := by
    unfold valPairs
    exact (hperm.map _).append_right _
  have hndfull2 : ((valPairs items2 ++
      [((255 : Nat), hash_elements
        (s1.layout.map StorageSlotType.toFelt))]).map Prod.fst).Nodup := by
    have := (hvalperm.map Prod.fst).nodup hndfull1
    exact this
  have hleaveq : setAll (List.replicate 256 EMPTY_WORD)
      (valPairs items2 ++
        [((255 : Nat), hash_elements
          (s1.layout.map StorageSlotType.toFelt))]) = s1.slots.leaves := by
    rw [hleaves1]
    refine list_eq_of_getD _ _ EMPTY_WORD ?_ ?_
    · rw [length_setAll, length_setAll]
    · intro j hj
      rw [length_setAll, List.length_replicate] at hj
      rw [setAll_getD _ _ _ _ hndfull2 (by rw [List.length_replicate]; exact hj),
        setAll_getD _ _ _ _ hndfull1 (by rw [List.length_replicate]; exact hj),
        find?_idx_perm hvalperm.symm hndfull2 j]
  refine ⟨_, h2, ?_, ?_⟩
  · show SimpleSmt.root _ = SimpleSmt.root _
    unfold SimpleSmt.root
    rw [show (⟨⟨setAll (List.replicate 256 EMPTY_WORD)
        (valPairs items2 ++
          [(255, hash_elements
            ((setAll initialLayout (tyPairs items2)).map
              StorageSlotType.toFelt))])⟩,
        setAll initialLayout (tyPairs items2), maps⟩ :
        AccountStorage).slots.leaves =
      setAll (List.replicate 256 EMPTY_WORD)
        (valPairs items2 ++
          [(255, hash_elements
            ((setAll initialLayout (tyPairs items2)).map
              StorageSlotType.toFelt))]) from rfl]
    rw [hcomm, hleaveq]
  · show setAll initialLayout (tyPairs items2) = s1.layout
    rw [hlayeq, hlay1]

/-- Witness for claim C9 at a concrete two-item list and its reversal. -/
theorem new_root_permutation_invariant_witness :
    c9Items1.Perm c9Items2 ∧
      AccountStorage.new c9Items1 none = .ok c9s1 ∧
      c9s2.root = c9s1.root := by
  have hperm : c9Items1.Perm c9Items2 := by decide
  have h1 : AccountStorage.new c9Items1 none = .ok c9s1 := by rfl
  obtain ⟨s2, hok, hroot, _⟩ :=
    new_root_permutation_invariant c9Items1 c9Items2 none c9s1 hperm h1
  have hs2 : c9s2 = s2 := by
    show storageOf (AccountStorage.new c9Items2 none) = s2
    rw [hok]
    rfl
  exact ⟨hperm, h1, by rw [hs2]; exact hroot⟩

/- ================================================================
   Claim C3: serialization round trip — supporting lemmas
   ================================================================ -/

lemma is_default_eq (t : StorageSlotType) (h : t.is_default = true) :
    t = .Value 0 := by
  cases t with
  | Value a => cases a with
    | zero => rfl
    | succ n => cases h
  | Map a => cases h
  | Array d a => cases h

/-- The u16 slot-type codec round-trips on well-formed types. -/
lemma fromU16_toU16 (t : StorageSlotType) (h : t.wf = true) :
    StorageSlotType.fromU16 t.toU16 = some t := by
  cases t with
  | Value a =>
      have ha : a < 256 := by simpa [StorageSlotType.wf] using h
      have hmod : a % 256 = a := Nat.mod_eq_of_lt ha
      simp only [StorageSlotType.toU16, StorageSlotType.fromU16]
      rw [hmod]
      have h1 : 256 * a % 256 = 0 := by omega
      have h2 : 256 * a / 256 = a := by omega
      rw [if_pos h1, h2]
  | Map a =>
      have ha : a < 256 := by simpa [StorageSlotType.wf] using h
      have hmod : a % 256 = a := Nat.mod_eq_of_lt ha
      simp only [StorageSlotType.toU16, StorageSlotType.fromU16]
      rw [hmod]
      have h1 : (256 * a + 255) % 256 = 255 := by omega
      have h2 : (256 * a + 255) / 256 = a := by omega
      rw [if_neg (by omega), if_pos h1, h2]
  | Array d a =>
      have ha : a < 256 ∧ 1 < d ∧ d ≤ 64 := by
        simpa [StorageSlotType.wf, Bool.and_eq_true, and_assoc] using h
      have hmoda : a % 256 = a := Nat.mod_eq_of_lt ha.1
      have hmodd : d % 256 = d := Nat.mod_eq_of_lt (by omega)
      simp only [StorageSlotType.toU16, StorageSlotType.fromU16]
      rw [hmoda, hmodd]
      have h1 : (256 * a + d) % 256 = d := by omega
      have h2 : (256 * a + d) / 256 = a := by omega
      rw [if_neg (by omega), if_neg (by omega)]
      rw [if_pos (by constructor <;> omega)]
      rw [h1, h2]

lemma initialLayout_getD_ne255 (j : Nat) (hj : j ≠ 255) :
    initialLayout.getD j StorageSlotType.default = .Value 0 := by
  unfold initialLayout
  rw [getD_set_ne _ _ _ _ _ (fun hh => hj hh.symm)]
  by_cases hj2 : j < 256
  · rw [List.getD_eq_getElem _ _ (by rw [List.length_replicate]; exact hj2)]
    rw [List.getElem_replicate]
    rfl
  · rw [List.getD_eq_default _ _
      (by rw [List.length_replicate]; exact Nat.le_of_not_lt hj2)]
    rfl

lemma initialLayout_getD_255 :
    initialLayout.getD 255 StorageSlotType.default = .Value 64 := by
  unfold initialLayout
  rw [getD_set_self _ _ _ _ (by rw [List.length_replicate]; decide)]

/-- Every element of a batch update comes from the initial list or from one
of the written values. -/
lemma setAll_mem {α : Type _} (entries : List (Nat × α)) :
    ∀ (init : List α) (a : α), a ∈ setAll init entries →
      a ∈ init ∨ ∃ e ∈ entries, e.2 = a := by
  induction entries with
  | nil => intro init a ha; exact Or.inl ha
  | cons e rest ih =>
      intro init a ha
      rcases ih (init.set e.1 e.2) a ha with hin | ⟨e', he', rfl⟩
      · rcases List.mem_or_eq_of_mem_set hin with h1 | h2
        · exact Or.inl h1
        · exact Or.inr ⟨e, List.mem_cons_self e rest, h2.symm⟩
      · exact Or.inr ⟨e', List.mem_cons_of_mem e he', rfl⟩

lemma initialLayout_wf : ∀ t ∈ initialLayout, t.wf = true := by
  intro t ht
  unfold initialLayout at ht
  rcases List.mem_or_eq_of_mem_set ht with h1 | h2
  · rw [List.eq_of_mem_replicate h1]; rfl
  · rw [h2]; rfl

/-- All layout entries of a storage built from well-formed items are
well-formed. -/
lemma layout_all_wf (items : List SlotItem)
    (hwf : ∀ it ∈ items, it.2.1.wf = true) :
    ∀ t ∈ setAll initialLayout (tyPairs items), t.wf = true := by
  intro t ht
  rcases setAll_mem (tyPairs items) initialLayout t ht with h1 | ⟨e, he, rfl⟩
  · exact initialLayout_wf t h1
  · obtain ⟨it, hit, rfl⟩ := List.mem_map.mp he
    exact hwf it hit

/-- Membership in an enumeration, index-first form. -/
lemma mem_enum_iff {α : Type _} (l : List α) (i : Nat) (a : α) :
    (i, a) ∈ l.enum ↔ ∃ hh : i < l.length, l[i] = a := by
  constructor
  · intro h
    have := List.mem_enum_iff_getElem?.mp h
    rw [List.getElem?_eq_some] at this
    exact this
  · intro ⟨hh, he⟩
    rw [List.mem_enum_iff_getElem?, List.getElem?_eq_some]
    exact ⟨hh, he⟩

/-- The indices of any filtered enumeration are distinct. -/
lemma enum_filter_map_fst_nodup {α : Type _} (l : List α)
    (pred : Nat × α → Bool) :
    ((l.enum.filter pred).map Prod.fst).Nodup := by
  have hsub : (l.enum.filter pred).Sublist l.enum := List.filter_sublist _
  have := (hsub.map Prod.fst).nodup
  rw [List.enum_map_fst] at this
  exact this (List.nodup_range _)

/-- `find?` respects pointwise-equal predicates. -/
lemma find?_congr_mem {α : Type _} {p q : α → Bool} (l : List α)
    (h : ∀ a ∈ l, p a = q a) : l.find? p = l.find? q := by
  induction l with
  | nil => rfl
  | cons a rest ih =>
      rw [List.find?_cons, List.find?_cons,
        h a (List.mem_cons_self a rest),
        ih (fun b hb => h b (List.mem_cons_of_mem a hb))]

lemma btFind_nil (k : Fin 256) : btFind [] k = none := rfl

/-- Removing one key leaves lookups of other keys unchanged. -/
lemma btFind_filter_ne (m : List (Fin 256 × StorageSlotType))
    (k k' : Fin 256) (h : k' ≠ k) :
    btFind (m.filter (fun p => !(p.1 == k))) k' = btFind m k' := by
  unfold btFind
  induction m with
  | nil => rfl
  | cons e rest ih =>
      by_cases hek : e.1 = k
      · have h1 : (!(e.1 == k)) = false := by simp [hek]
        have h2 : (e.1 == k') = false := by
          simp only [beq_eq_false_iff_ne]
          rw [hek]
          exact fun hh => h hh.symm
        rw [List.filter_cons, h1]
        rw [if_neg Bool.false_ne_true]
        rw [ih, List.find?_cons, h2]
      · have h1 : (!(e.1 == k)) = true := by simp [hek]
        rw [List.filter_cons, h1]
        rw [if_pos rfl]
        rw [List.find?_cons, List.find?_cons]
        cases hek' : e.1 == k' with
        | true => rfl
        | false => exact ih

lemma btFind_insert_self (m : List (Fin 256 × StorageSlotType))
    (k : Fin 256) (v : StorageSlotType) :
    btFind (btInsert m k v) k = some v := by
  unfold btFind btInsert
  rw [List.find?_append]
  have h1 : (m.filter (fun p => !(p.1 == k))).find?
      (fun p => p.1 == k) = none := by
    rw [List.find?_eq_none]
    intro x hx hpx
    have hf : (!(x.1 == k)) = true := (List.mem_filter.mp hx).2
    rw [Bool.not_eq_true'] at hf
    have hpx' : (x.1 == k) = true := hpx
    rw [hf] at hpx'
    cases hpx'
  rw [h1]
  have h2 : ([((k : Fin 256), v)].find? (fun p => p.1 == k)) = some (k, v) := by
    rw [List.find?_cons]
    simp
  rw [h2]
  rfl

lemma btFind_insert_ne (m : List (Fin 256 × StorageSlotType))
    (k k' : Fin 256) (v : StorageSlotType) (h : k' ≠ k) :
    btFind (btInsert m k v) k' = btFind m k' := by
  unfold btInsert
  show btFind (m.filter (fun p => !(p.1 == k)) ++ [(k, v)]) k' = _
  unfold btFind
  rw [List.find?_append]
  have h2 : ([((k : Fin 256), v)].find? (fun p => p.1 == k')) = none := by
    rw [List.find?_eq_none]
    intro x hx hpx
    rw [List.mem_singleton] at hx
    subst hx
    have hpx' : (k == k') = true := hpx
    have hkk : k = k' := by simpa using hpx'
    exact h hkk.symm
  rw [h2]
  have := btFind_filter_ne m k k' h
  unfold btFind at this
  rw [← this]
  cases (m.filter (fun p => !(p.1 == k))).find? (fun p => p.1 == k') with
  | none => rfl
  | some p => rfl

/-- Lookup in the map built by folding inserts: the unique entry with the
key, when the keys are distinct. -/
lemma btFind_foldl (cts : List (Nat × StorageSlotType)) :
    ∀ (m : List (Fin 256 × StorageSlotType)) (k : Fin 256),
      ((cts.map (fun p => toU8 p.1)).Nodup) →
      btFind (cts.foldl (fun acc p => btInsert acc (toU8 p.1) p.2) m) k =
        match cts.find? (fun p => toU8 p.1 == k) with
        | some p => some p.2
        | none => btFind m k := by
  induction cts with
  | nil => intro m k _; rfl
  | cons c rest ih =>
      intro m k hnd
      rw [List.map_cons, List.nodup_cons] at hnd
      show btFind (rest.foldl _ (btInsert m (toU8 c.1) c.2)) k = _
      rw [ih _ k hnd.2, List.find?_cons]
      cases hck : (toU8 c.1 == k) with
      | true =>
          have hk : toU8 c.1 = k := by simpa using hck
          have hnone : rest.find? (fun p => toU8 p.1 == k) = none := by
            rw [List.find?_eq_none]
            intro x hx hpx
            have hxk : toU8 x.1 = k := by simpa using hpx
            have hxmem : toU8 x.1 ∈ rest.map (fun p => toU8 p.1) :=
              List.mem_map_of_mem _ hx
            rw [hxk, ← hk] at hxmem
            exact hnd.1 hxmem
          rw [hnone, hk, btFind_insert_self]
      | false =>
          have hk : toU8 c.1 ≠ k := by simpa using hck
          cases hfind : rest.find? (fun p => toU8 p.1 == k) with
          | some p => rfl
          | none => rw [btFind_insert_ne _ _ _ _ (fun hh => hk hh.symm)]

/-- The first deserializer loop consumes exactly the serialized complex-type
pairs, folding them into the map with insert. -/
lemma readComplexTypes_spec (cts : List (Nat × StorageSlotType)) :
    ∀ (rest : List SerTok) (m : List (Fin 256 × StorageSlotType)),
      (∀ p ∈ cts, p.2.wf = true) →
      readComplexTypes cts.length
        ((cts.map (fun p =>
          [SerTok.u8 (toU8 p.1), SerTok.u16 p.2.toU16])).flatten ++ rest) m =
        .ok (cts.foldl (fun acc p => btInsert acc (toU8 p.1) p.2) m, rest) := by
  induction cts with
  | nil => intro rest m _; rfl
  | cons c cs ih =>
      intro rest m hwf
      rw [List.map_cons, List.flatten_cons, List.append_assoc]
      have hc2 := fromU16_toU16 c.2 (hwf c (List.mem_cons_self c cs))
      show (match StorageSlotType.fromU16 c.2.toU16 with
            | some slot_type =>
                readComplexTypes cs.length
                  ((cs.map (fun p : Nat × StorageSlotType =>
                    [SerTok.u8 (toU8 p.1), SerTok.u16 p.2.toU16])).flatten ++
                      rest)
                  (btInsert m (toU8 c.1) slot_type)
            | none =>
                .error (.InvalidValue "invalid storage slot type")) = _
      rw [hc2]
      exact ih rest (btInsert m (toU8 c.1) c.2)
        (fun p hp => hwf p (List.mem_cons_of_mem c hp))

/-- The second deserializer loop consumes exactly the serialized filled-slot
pairs, resolving each index's type in the (shrinking) complex-types map; with
distinct indices the resolved types are the lookups in the initial map. -/
lemma readFilledSlots_spec (fsl : List (Nat × Word)) :
    ∀ (rest : List SerTok) (m : List (Fin 256 × StorageSlotType))
      (acc : List SlotItem),
      ((fsl.map (fun p => toU8 p.1)).Nodup) →
      readFilledSlots fsl.length
        ((fsl.map (fun p =>
          [SerTok.u8 (toU8 p.1), SerTok.word p.2])).flatten ++ rest) m acc =
        .ok (acc ++ fsl.map (fun p => ((toU8 p.1),
          ((btFind m (toU8 p.1)).getD StorageSlotType.default, p.2))),
          rest) := by
  induction fsl with
  | nil => intro rest m acc _; simp [readFilledSlots]
  | cons p ps ih =>
      intro rest m acc hnd
      rw [List.map_cons, List.nodup_cons] at hnd
      rw [List.map_cons, List.flatten_cons, List.append_assoc, List.map_cons]
      show readFilledSlots ps.length
          ((ps.map (fun p =>
            [SerTok.u8 (toU8 p.1), SerTok.word p.2])).flatten ++ rest)
          (m.filter (fun q => !(q.1 == toU8 p.1)))
          (acc ++ [((toU8 p.1),
            ((btFind m (toU8 p.1)).getD StorageSlotType.default, p.2))]) = _
      rw [ih rest _ _ hnd.2]
      rw [List.append_assoc]
      have hmap : ps.map (fun q => ((toU8 q.1),
          ((btFind (m.filter (fun r => !(r.1 == toU8 p.1)))
            (toU8 q.1)).getD StorageSlotType.default, q.2))) =
          ps.map (fun q => ((toU8 q.1),
            ((btFind m (toU8 q.1)).getD StorageSlotType.default, q.2))) := by
        refine List.map_congr_left ?_
        intro q hq
        have hne : toU8 q.1 ≠ toU8 p.1 := by
          intro hh
          exact hnd.1 (hh ▸ List.mem_map_of_mem _ hq)
        rw [btFind_filter_ne m (toU8 p.1) (toU8 q.1) hne]
      rw [hmap]
      rfl

lemma toU8_val (n : Nat) (h : n < 256) : (toU8 n).val = n := Nat.mod_eq_of_lt h

lemma toU8_beq (a b : Nat) (ha : a < 256) (hb : b < 256) :
    (toU8 a == toU8 b) = (a == b) := by
  by_cases h : a = b
  · subst h
    simp
  · have hne : toU8 a ≠ toU8 b := by
      intro hh
      have := congrArg Fin.val hh
      rw [toU8_val a ha, toU8_val b hb] at this
      exact h this
    simp [h, hne]

lemma nodup_map_toU8 (l : List Nat) (hnd : l.Nodup)
    (hlt : ∀ k ∈ l, k < 256) : (l.map toU8).Nodup := by
  refine (List.nodup_map_iff_inj_on hnd).mpr ?_
  intro x hx y hy heq
  have := congrArg Fin.val heq
  rwa [toU8_val x (hlt x hx), toU8_val y (hlt y hy)] at this

/-- The serializer's token stream, in cons-normal form. -/
lemma write_into_eq (s : AccountStorage) :
    s.write_into = SerTok.u8 (toU8 (complexTypesOf s).length) ::
      (((complexTypesOf s).map (fun p : Nat × StorageSlotType =>
        [SerTok.u8 (toU8 p.1), SerTok.u16 p.2.toU16])).flatten ++
        (SerTok.u8 (toU8 (filledSlotsOf s).length) ::
          ((filledSlotsOf s).map (fun p : Nat × Word =>
            [SerTok.u8 (toU8 p.1), SerTok.word p.2])).flatten)) := by
  simp only [AccountStorage.write_into]
  rw [List.append_assoc, List.append_assoc]
  rfl

/-- Membership in the serialized complex types: exactly the indices below
255 whose layout type is not the default. -/
lemma complexTypesOf_mem (s : AccountStorage) (hlen : s.layout.length = 256)
    (j : Nat) (t : StorageSlotType) :
    ((j, t) ∈ complexTypesOf s) ↔
      (j < 255 ∧ s.layout.getD j StorageSlotType.default = t ∧
        t.is_default = false) := by
  unfold complexTypesOf
  rw [List.mem_filter]
  have htakelen : (s.layout.take 255).length = 255 := by
    rw [List.length_take, hlen]
    omega
  constructor
  · intro ⟨hmem, hpred⟩
    obtain ⟨hjlen, hget⟩ := (mem_enum_iff _ _ _).mp hmem
    rw [htakelen] at hjlen
    have hjlen' : j < (s.layout.take 255).length := by rw [htakelen]; exact hjlen
    refine ⟨hjlen, ?_, ?_⟩
    · rw [List.getD_eq_getElem _ _ (by rw [hlen]; omega)]
      rw [← hget]
      exact (List.getElem_take s.layout).symm
    · have : (!t.is_default) = true := hpred
      simpa using this
  · intro ⟨hj, hget, hdef⟩
    constructor
    · rw [mem_enum_iff]
      refine ⟨by rw [htakelen]; exact hj, ?_⟩
      rw [List.getElem_take s.layout]
      rw [List.getD_eq_getElem _ _ (by rw [hlen]; omega)] at hget
      exact hget
    · show (!t.is_default) = true
      rw [hdef]
      rfl

/-- Membership in the serialized filled slots: exactly the non-reserved
indices holding a non-zero word. -/
lemma filledSlotsOf_mem (s : AccountStorage)
    (hlen : s.slots.leaves.length = 256) (j : Nat) (v : Word) :
    ((j, v) ∈ filledSlotsOf s) ↔
      (j < 256 ∧ s.slots.leaves.getD j EMPTY_WORD = v ∧ v ≠ EMPTY_WORD ∧
        j ≠ 255) := by
  unfold filledSlotsOf
  rw [List.mem_filter]
  constructor
  · intro ⟨hmem, hpred⟩
    obtain ⟨hjlen, hget⟩ := (mem_enum_iff _ _ _).mp hmem
    rw [hlen] at hjlen
    have hpred' : (!(v == EMPTY_WORD)) = true ∧ (!((j : Nat) == 255)) = true := by
      have hand : ((!(v == EMPTY_WORD)) && (!((j : Nat) == 255))) = true := hpred
      rw [Bool.and_eq_true] at hand
      exact hand
    refine ⟨hjlen, ?_, ?_, ?_⟩
    · rw [List.getD_eq_getElem _ _ (by rw [hlen]; exact hjlen)]
      exact hget
    · simpa using hpred'.1
    · simpa using hpred'.2
  · intro ⟨hj, hget, hv, hj255⟩
    constructor
    · rw [mem_enum_iff]
      refine ⟨by rw [hlen]; exact hj, ?_⟩
      rw [List.getD_eq_getElem _ _ (by rw [hlen]; exact hj)] at hget
      exact hget
    · show ((!(v == EMPTY_WORD)) && (!((j : Nat) == 255))) = true
      rw [Bool.and_eq_true]
      constructor
      · simpa using hv
      · simpa using hj255

lemma complexTypesOf_length_le (s : AccountStorage)
    (hlen : s.layout.length = 256) : (complexTypesOf s).length ≤ 255 := by
  unfold complexTypesOf
  calc ((s.layout.take 255).enum.filter
        (fun p => !p.2.is_default)).length
      ≤ (s.layout.take 255).enum.length := List.length_filter_le _ _
    _ = (s.layout.take 255).length := List.enum_length
    _ = 255 := by rw [List.length_take, hlen]; omega

lemma filledSlotsOf_length_le (s : AccountStorage)
    (hlen : s.slots.leaves.length = 256) :
    (filledSlotsOf s).length ≤ 255 := by
  have hlt : (filledSlotsOf s).length < s.slots.leaves.enum.length := by
    refine List.length_filter_lt_length_iff_exists.mpr ?_
    refine ⟨(255, s.slots.leaves.get ⟨255, by rw [hlen]; decide⟩), ?_, ?_⟩
    · rw [mem_enum_iff]
      exact ⟨by rw [hlen]; decide, rfl⟩
    · simp
  rw [List.enum_length, hlen] at hlt
  omega

lemma complexTypesOf_fst_nodup (s : AccountStorage) :
    ((complexTypesOf s).map Prod.fst).Nodup :=
  enum_filter_map_fst_nodup _ _

lemma filledSlotsOf_fst_nodup (s : AccountStorage) :
    ((filledSlotsOf s).map Prod.fst).Nodup :=
  enum_filter_map_fst_nodup _ _

/-- The tree entries of an item list with distinct non-reserved indices,
together with the appended slot-255 entry, have distinct indices. -/
lemma entries_nodup (items : List SlotItem)
    (hno : ∀ it ∈ items, it.1.val ≠ 255)
    (hnd : (items.map (fun it => it.1.val)).Nodup) (w : Word) :
    ((valPairs items ++ [((255 : Nat), w)]).map Prod.fst).Nodup := by
  rw [List.map_append, List.nodup_append]
  refine ⟨by rw [valPairs_map_fst]; exact hnd, List.nodup_singleton _, ?_⟩
  intro a ha hb
  rw [valPairs_map_fst] at ha
  obtain ⟨it, hit, rfl⟩ := List.mem_map.mp ha
  have h255 : it.1.val = 255 := by simpa using hb
  exact hno it hit h255

set_option maxHeartbeats 2000000 in
/-- Claim C3 (amended): for every storage constructed from well-formed
(index, type, value) triples with non-reserved indices in which every triple
with a non-default slot type carries a non-zero value, deserializing the
serialization succeeds, consumes the whole stream, and yields a storage with
the same `root()` and the same `layout()`. -/
theorem storage_roundtrip (items : List SlotItem) (maps : Option (List Smt))
    (s : AccountStorage) (h : AccountStorage.new items maps = .ok s)
    (hwf : ∀ it ∈ items, it.2.1.wf = true)
    (hval : ∀ it ∈ items, it.2.1.is_default = false → it.2.2 ≠ EMPTY_WORD) :
    ∃ s', AccountStorage.read_from s.write_into = .ok (s', []) ∧
      s'.root = s.root ∧ s'.layout = s.layout := by
  obtain ⟨hlay, hleaves, _hm, hno, hndfull⟩ := new_ok_char items maps s h
  have hnditems : (items.map (fun it => it.1.val)).Nodup := by
    rw [← valPairs_map_fst]
    have h2 := hndfull
    rw [List.map_append] at h2
    exact h2.of_append_left
  have hlaylen : s.layout.length = 256 := by
    rw [hlay, length_setAll, initialLayout_length]
  have hlvlen : s.slots.leaves.length = 256 := by
    rw [hleaves, length_setAll, List.length_replicate]
  have hinv := new_ok_invariant items maps s h
  have htynd : ((tyPairs items).map Prod.fst).Nodup := by
    rw [tyPairs_map_fst]; exact hnditems
  -- the original storage, read pointwise
  have hlayget : ∀ j : Nat, j < 256 →
      s.layout.getD j StorageSlotType.default =
        (match items.find? (fun it => it.1.val == j) with
         | some it => it.2.1
         | none => initialLayout.getD j StorageSlotType.default) := by
    intro j hj
    rw [hlay, setAll_getD _ _ _ _ htynd
      (by rw [initialLayout_length]; exact hj)]
    unfold tyPairs
    rw [List.find?_map]
    rw [show ((fun p : Nat × StorageSlotType => p.1 == j) ∘
      (fun it : SlotItem => (it.1.val, it.2.1))) =
      (fun it : SlotItem => it.1.val == j) from rfl]
    cases hfind : items.find? (fun it => it.1.val == j) with
    | some it => rfl
    | none => rfl
  have hlvget : ∀ j : Nat, j < 256 → j ≠ 255 →
      s.slots.leaves.getD j EMPTY_WORD =
        (match items.find? (fun it => it.1.val == j) with
         | some it => it.2.2
         | none => EMPTY_WORD) := by
    intro j hj hj255
    rw [hleaves, setAll_getD _ _ _ _ hndfull
      (by rw [List.length_replicate]; exact hj)]
    rw [List.find?_append]
    have hsingle : (([((255 : Nat), hash_elements
        (s.layout.map StorageSlotType.toFelt))]).find?
        (fun p => p.1 == j)) = none := by
      rw [List.find?_eq_none]
      intro x hx hpx
      rw [List.mem_singleton] at hx
      subst hx
      have h255j : (255 : Nat) = j := by simpa using hpx
      exact hj255 h255j.symm
    rw [hsingle]
    unfold valPairs
    rw [List.find?_map]
    rw [show ((fun p : Nat × Word => p.1 == j) ∘
      (fun it : SlotItem => (it.1.val, it.2.2))) =
      (fun it : SlotItem => it.1.val == j) from rfl]
    cases hfind : items.find? (fun it => it.1.val == j) with
    | some it => rfl
    | none =>
        show (List.replicate 256 EMPTY_WORD).getD j EMPTY_WORD = EMPTY_WORD
        rw [List.getD_eq_getElem _ _ (by rw [List.length_replicate]; exact hj),
          List.getElem_replicate]
  -- the serialized complex types
  have hctwf : ∀ p ∈ complexTypesOf s, p.2.wf = true := by
    intro p hp
    have hmem : p.2 ∈ s.layout.take 255 := by
      unfold complexTypesOf at hp
      exact List.snd_mem_of_mem_enum (List.mem_filter.mp hp).1
    have hmem2 : p.2 ∈ s.layout := List.mem_of_mem_take hmem
    rw [hlay] at hmem2
    exact layout_all_wf items hwf p.2 hmem2
  have hctlt : ∀ p ∈ complexTypesOf s, p.1 < 256 := by
    intro p hp
    obtain ⟨h1, _, _⟩ := (complexTypesOf_mem s hlaylen p.1 p.2).mp (by exact hp)
    omega
  have hctndF : ((complexTypesOf s).map (fun p => toU8 p.1)).Nodup := by
    have he : (complexTypesOf s).map (fun p => toU8 p.1) =
        ((complexTypesOf s).map Prod.fst).map toU8 := by
      rw [List.map_map]
      rfl
    rw [he]
    refine nodup_map_toU8 _ (complexTypesOf_fst_nodup s) ?_
    intro k hk
    obtain ⟨p, hp, rfl⟩ := List.mem_map.mp hk
    exact hctlt p hp
  -- the deserializer's type map resolves every non-reserved index to its
  -- layout type
  have hbt : ∀ j : Nat, j < 256 → j ≠ 255 →
      ((btFind ((complexTypesOf s).foldl
        (fun acc p => btInsert acc (toU8 p.1) p.2) []) (toU8 j)).getD
        StorageSlotType.default) =
      s.layout.getD j StorageSlotType.default := by
    intro j hj hj255
    rw [btFind_foldl _ _ _ hctndF]
    rw [find?_congr_mem (complexTypesOf s)
      (fun p hp => toU8_beq p.1 j (hctlt p hp) hj)]
    cases hfind : (complexTypesOf s).find? (fun p => p.1 == j) with
    | some q =>
        have hqj : q.1 = j := by simpa using List.find?_some hfind
        have hqc := (complexTypesOf_mem s hlaylen q.1 q.2).mp
          (by exact List.mem_of_find?_eq_some hfind)
        rw [hqj] at hqc
        show q.2 = _
        exact hqc.2.1.symm
    | none =>
        have hnotin : s.layout.getD j StorageSlotType.default = .Value 0 := by
          by_cases hd : (s.layout.getD j
              StorageSlotType.default).is_default = true
          · exact is_default_eq _ hd
          · exfalso
            have hmem := (complexTypesOf_mem s hlaylen j
              (s.layout.getD j StorageSlotType.default)).mpr
              ⟨by omega, rfl, by simpa using hd⟩
            rw [List.find?_eq_none] at hfind
            exact hfind _ hmem (by simp)
        rw [hnotin]
        rfl
  -- the serialized filled slots
  have hfslt : ∀ p ∈ filledSlotsOf s, p.1 < 256 ∧ p.1 ≠ 255 := by
    intro p hp
    obtain ⟨h1, _, _, h4⟩ :=
      (filledSlotsOf_mem s hlvlen p.1 p.2).mp (by exact hp)
    exact ⟨h1, h4⟩
  have hfsndF : ((filledSlotsOf s).map (fun p => toU8 p.1)).Nodup := by
    have he : (filledSlotsOf s).map (fun p => toU8 p.1) =
        ((filledSlotsOf s).map Prod.fst).map toU8 := by
      rw [List.map_map]
      rfl
    rw [he]
    refine nodup_map_toU8 _ (filledSlotsOf_fst_nodup s) ?_
    intro k hk
    obtain ⟨p, hp, rfl⟩ := List.mem_map.mp hk
    exact (hfslt p hp).1
  have hfs_none_empty : ∀ j : Nat, j < 256 → j ≠ 255 →
      (filledSlotsOf s).find? (fun p => p.1 == j) = none →
      s.slots.leaves.getD j EMPTY_WORD = EMPTY_WORD := by
    intro j hj hj255 hfind
    by_cases hv : s.slots.leaves.getD j EMPTY_WORD = EMPTY_WORD
    · exact hv
    · exfalso
      have hmem := (filledSlotsOf_mem s hlvlen j _).mpr ⟨hj, rfl, hv, hj255⟩
      rw [List.find?_eq_none] at hfind
      exact hfind _ hmem (by simp)
  -- run the deserializer over the serialized stream
  have hreadct := readComplexTypes_spec (complexTypesOf s)
    (SerTok.u8 (toU8 (filledSlotsOf s).length) ::
      ((filledSlotsOf s).map (fun p : Nat × Word =>
        [SerTok.u8 (toU8 p.1), SerTok.word p.2])).flatten) [] hctwf
  have hreadfs := readFilledSlots_spec (filledSlotsOf s) []
    ((complexTypesOf s).foldl (fun acc p => btInsert acc (toU8 p.1) p.2) [])
    [] hfsndF
  rw [List.append_nil, List.nil_append] at hreadfs
  have hctlen255 := complexTypesOf_length_le s hlaylen
  have hfslen255 := filledSlotsOf_length_le s hlvlen
  -- the reconstructed item list
  have hnoRT : ∀ it ∈ (filledSlotsOf s).map (fun p : Nat × Word =>
      ((toU8 p.1), ((btFind ((complexTypesOf s).foldl
        (fun acc q => btInsert acc (toU8 q.1) q.2) []) (toU8 p.1)).getD
        StorageSlotType.default, p.2))), it.1.val ≠ 255 := by
    intro it hit
    obtain ⟨p, hp, rfl⟩ := List.mem_map.mp hit
    rw [toU8_val p.1 (hfslt p hp).1]
    exact (hfslt p hp).2
  have hndRT : (((filledSlotsOf s).map (fun p : Nat × Word =>
      ((toU8 p.1), ((btFind ((complexTypesOf s).foldl
        (fun acc q => btInsert acc (toU8 q.1) q.2) []) (toU8 p.1)).getD
        StorageSlotType.default, p.2)))).map
      (fun it => it.1.val)).Nodup := by
    rw [List.map_map]
    rw [show ((fun it : SlotItem => it.1.val) ∘ (fun p : Nat × Word =>
      ((toU8 p.1), ((btFind ((complexTypesOf s).foldl
        (fun acc q => btInsert acc (toU8 q.1) q.2) []) (toU8 p.1)).getD
        StorageSlotType.default, p.2)))) =
      (fun p : Nat × Word => (toU8 p.1).val) from rfl]
    rw [List.map_congr_left
      (fun p hp => toU8_val p.1 (hfslt p hp).1)]
    have he : (filledSlotsOf s).map (fun p : Nat × Word => p.1) =
        (filledSlotsOf s).map Prod.fst := rfl
    rw [he]
    exact filledSlotsOf_fst_nodup s
  -- layout round trip: pointwise equality
  have hlayRT : setAll initialLayout (tyPairs ((filledSlotsOf s).map
      (fun p : Nat × Word =>
        ((toU8 p.1), ((btFind ((complexTypesOf s).foldl
          (fun acc q => btInsert acc (toU8 q.1) q.2) []) (toU8 p.1)).getD
          StorageSlotType.default, p.2))))) = s.layout := by
    refine list_eq_of_getD _ _ StorageSlotType.default ?_ ?_
    · rw [length_setAll, initialLayout_length, hlaylen]
    · intro j hj
      rw [length_setAll, initialLayout_length] at hj
      have hndty : ((tyPairs ((filledSlotsOf s).map (fun p : Nat × Word =>
          ((toU8 p.1), ((btFind ((complexTypesOf s).foldl
            (fun acc q => btInsert acc (toU8 q.1) q.2) []) (toU8 p.1)).getD
            StorageSlotType.default, p.2))))).map Prod.fst).Nodup := by
        rw [tyPairs_map_fst]
        exact hndRT
      rw [setAll_getD _ _ _ _ hndty
        (by rw [initialLayout_length]; exact hj)]
      unfold tyPairs
      rw [List.map_map, List.find?_map]
      rw [show ((fun q : Nat × StorageSlotType => q.1 == j) ∘
        ((fun it : SlotItem => (it.1.val, it.2.1)) ∘ (fun p : Nat × Word =>
          ((toU8 p.1), ((btFind ((complexTypesOf s).foldl
            (fun acc q => btInsert acc (toU8 q.1) q.2) []) (toU8 p.1)).getD
            StorageSlotType.default, p.2))))) =
        (fun p : Nat × Word => (toU8 p.1).val == j) from rfl]
      rw [find?_congr_mem (filledSlotsOf s)
        (fun p hp => by rw [toU8_val p.1 (hfslt p hp).1])]
      cases hfind : (filledSlotsOf s).find? (fun p => p.1 == j) with
      | some p =>
          have hpj : p.1 = j := by simpa using List.find?_some hfind
          show (btFind ((complexTypesOf s).foldl
            (fun acc q => btInsert acc (toU8 q.1) q.2) []) (toU8 p.1)).getD
            StorageSlotType.default = _
          obtain ⟨_, _, _, hp255⟩ := (filledSlotsOf_mem s hlvlen p.1 p.2).mp
            (by exact List.mem_of_find?_eq_some hfind)
          rw [hpj]
          exact hbt j hj (hpj ▸ hp255)
      | none =>
          show initialLayout.getD j StorageSlotType.default = _
          by_cases hj255 : j = 255
          · subst hj255
            rw [hlayget 255 (by decide)]
            have hifn : items.find? (fun it => it.1.val == 255) = none := by
              rw [List.find?_eq_none]
              intro it hit hpit
              exact hno it hit (by simpa using hpit)
            rw [hifn]
          · have hempty := hfs_none_empty j hj hj255 hfind
            rw [hlayget j hj]
            cases hifind : items.find? (fun it => it.1.val == j) with
            | some it =>
                have hitmem := List.mem_of_find?_eq_some hifind
                have hlv := hlvget j hj hj255
                rw [hifind] at hlv
                have hvit : it.2.2 = EMPTY_WORD := by
                  rw [hlv] at hempty
                  exact hempty
                have hdef : it.2.1.is_default = true := by
                  by_cases hd : it.2.1.is_default = true
                  · exact hd
                  · exact absurd hvit (hval it hitmem (by simpa using hd))
                show initialLayout.getD j StorageSlotType.default = it.2.1
                rw [is_default_eq _ hdef, initialLayout_getD_ne255 j hj255]
            | none => rfl
  -- leaves round trip: pointwise equality
  have hndv := entries_nodup ((filledSlotsOf s).map (fun p : Nat × Word =>
      ((toU8 p.1), ((btFind ((complexTypesOf s).foldl
        (fun acc q => btInsert acc (toU8 q.1) q.2) []) (toU8 p.1)).getD
        StorageSlotType.default, p.2)))) hnoRT hndRT
    (hash_elements (s.layout.map StorageSlotType.toFelt))
  have hlvRT : setAll (List.replicate 256 EMPTY_WORD)
      (valPairs ((filledSlotsOf s).map (fun p : Nat × Word =>
        ((toU8 p.1), ((btFind ((complexTypesOf s).foldl
          (fun acc q => btInsert acc (toU8 q.1) q.2) []) (toU8 p.1)).getD
          StorageSlotType.default, p.2)))) ++
        [((255 : Nat), hash_elements
          (s.layout.map StorageSlotType.toFelt))]) = s.slots.leaves := by
    refine list_eq_of_getD _ _ EMPTY_WORD ?_ ?_
    · rw [length_setAll, List.length_replicate, hlvlen]
    · intro j hj
      rw [length_setAll, List.length_replicate] at hj
      rw [setAll_getD _ _ _ _ hndv (by rw [List.length_replicate]; exact hj)]
      rw [List.find?_append]
      by_cases hj255 : j = 255
      · subst hj255
        have hnone : (valPairs ((filledSlotsOf s).map (fun p : Nat × Word =>
            ((toU8 p.1), ((btFind ((complexTypesOf s).foldl
              (fun acc q => btInsert acc (toU8 q.1) q.2) []) (toU8 p.1)).getD
              StorageSlotType.default, p.2))))).find?
            (fun p => p.1 == 255) = none := by
          rw [List.find?_eq_none]
          intro x hx hpx
          unfold valPairs at hx
          obtain ⟨it, hit, rfl⟩ := List.mem_map.mp hx
          exact hnoRT it hit (by simpa using hpx)
        rw [hnone]
        show hash_elements (s.layout.map StorageSlotType.toFelt) =
          s.slots.leaves.getD 255 EMPTY_WORD
        exact hinv.2.symm
      · have hsingle : ([((255 : Nat), hash_elements
            (s.layout.map StorageSlotType.toFelt))].find?
            (fun p => p.1 == j)) = none := by
          rw [List.find?_eq_none]
          intro x hx hpx
          rw [List.mem_singleton] at hx
          subst hx
          have h255j : (255 : Nat) = j := by simpa using hpx
          exact hj255 h255j.symm
        rw [hsingle]
        unfold valPairs
        rw [List.map_map, List.find?_map]
        rw [show ((fun q : Nat × Word => q.1 == j) ∘
          ((fun it : SlotItem => (it.1.val, it.2.2)) ∘ (fun p : Nat × Word =>
            ((toU8 p.1), ((btFind ((complexTypesOf s).foldl
              (fun acc q => btInsert acc (toU8 q.1) q.2) []) (toU8 p.1)).getD
              StorageSlotType.default, p.2))))) =
          (fun p : Nat × Word => (toU8 p.1).val == j) from rfl]
        rw [find?_congr_mem (filledSlotsOf s)
          (fun p hp => by rw [toU8_val p.1 (hfslt p hp).1])]
        cases hfind : (filledSlotsOf s).find? (fun p => p.1 == j) with
        | some p =>
            have hpj : p.1 = j := by simpa using List.find?_some hfind
            obtain ⟨_, hgv, _, _⟩ := (filledSlotsOf_mem s hlvlen p.1 p.2).mp
              (by exact List.mem_of_find?_eq_some hfind)
            show p.2 = s.slots.leaves.getD j EMPTY_WORD
            rw [← hpj]
            exact hgv.symm
        | none =>
            have hempty := hfs_none_empty j hj hj255 hfind
            show (List.replicate 256 EMPTY_WORD).getD j EMPTY_WORD = _
            rw [List.getD_eq_getElem _ _
              (by rw [List.length_replicate]; exact hj),
              List.getElem_replicate, hempty]
  -- run the deserializer end to end
  have hex : ∃ s', AccountStorage.read_from s.write_into = .ok (s', []) ∧
      AccountStorage.new ((filledSlotsOf s).map (fun p : Nat × Word =>
        ((toU8 p.1), ((btFind ((complexTypesOf s).foldl
          (fun acc q => btInsert acc (toU8 q.1) q.2) []) (toU8 p.1)).getD
          StorageSlotType.default, p.2)))) none = .ok s' := by
    rw [write_into_eq s]
    unfold AccountStorage.read_from
    dsimp only [read_u8]
    rw [toU8_val (complexTypesOf s).length (by omega)]
    rw [hreadct]
    dsimp only
    rw [toU8_val (filledSlotsOf s).length (by omega)]
    rw [hreadfs]
    dsimp only
    rw [new_ok_of _ none hnoRT hndRT (fun m hm => by cases hm)]
    exact ⟨_, rfl, rfl⟩
  obtain ⟨s', hread, hnew'⟩ := hex
  obtain ⟨hlay', hleaves', _, _, _⟩ := new_ok_char _ none s' hnew'
  refine ⟨s', hread, ?_, ?_⟩
  · show hash_elements s'.slots.leaves.flatten =
      hash_elements s.slots.leaves.flatten
    rw [hleaves', hlay', hlayRT, hlvRT]
  · rw [hlay']
    exact hlayRT

/-- Counterexample to claim C3 as stated: a storage whose single item has a
non-default (`Array`) slot type but the zero word as value serializes its
type, yet deserialization drops it (the type is only consulted for non-empty
slots), so the reconstructed storage has a different layout. -/
theorem storage_roundtrip_counterexample :
    AccountStorage.new [(3, (.Array 4 3, EMPTY_WORD))] none = .ok cexStorage ∧
      AccountStorage.read_from cexStorage.write_into =
        .ok (cexStorageRT, []) ∧
      cexStorageRT.layout ≠ cexStorage.layout := by
  refine ⟨by rfl, by rfl, by decide⟩

/-- Witness for (amended) claim C3 at a concrete well-formed item list. -/
theorem storage_roundtrip_witness :
    (AccountStorage.new rtItems none = .ok rtStorage) ∧
      AccountStorage.read_from rtStorage.write_into = .ok (rtStorageRT, []) ∧
      rtStorageRT.root = rtStorage.root ∧
      rtStorageRT.layout = rtStorage.layout := by
  obtain ⟨s', hread, hroot, hlayeq⟩ := storage_roundtrip rtItems none
    rtStorage (by rfl) (by decide) (by decide)
  have hs : rtStorageRT = s' := by
    show (match AccountStorage.read_from rtStorage.write_into with
          | .ok p => p.1
          | .error _ => defaultStorage) = s'
    rw [hread]
  refine ⟨by rfl, ?_, ?_, ?_⟩
  · rw [hs]; exact hread
  · rw [hs]; exact hroot
  · rw [hs]; exact hlayeq
